import Mathlib

/-!
# Verification of the `matching_engine` CLOB repository

A shallow embedding of the C++ sources:

* `include/sparse_set.hpp` — the `SparseSet<T>` paged directory (modelled
  byte-accurately for page initialisation, since the `memset` in `Page`'s
  constructor zeroes `size` bytes and not `size * sizeof(T)` bytes);
* `src/clob.cpp` + `include/clob.hpp` — `TradeDS::Order`, `TradeDS::Limit`
  and `TradeDS::Book` (insert / amend / detach / remove / getters);
* `src/matching_engine.cpp` + `include/matching_engine.hpp` —
  `MatchingEngine` (add_order / amend_order / pull_order).

Modelling conventions:

* `uint64_t` order ids are `Nat`; `int64_t` / `double` prices and volumes are
  `Int`.  Every book the engine creates has `unit = 1`, and all prices that
  reach a book are integers, so the `double` arithmetic of the source
  (`fmod(price, unit)`, `price / unit`) is exact and is modelled on `Int`.
  Where the source converts `int64_t` to `uint64_t` (the volume comparison in
  `MatchingEngine::amend_order` and the argument of `Book::amend`) the
  conversion is modelled explicitly as `% 2^64`.
* `unordered_map` fields are association lists (the engine never relies on
  iteration order); `Limit`'s doubly-linked order chain is the list of
  order ids from `front_order` to `tail_order`, and the four pointer-splice
  cases of `Book::detach` are the removal of the (unique) occurrence of the
  id from that list.
* Raw pointers to `Limit` objects (`Order::limit`, `Book::highest_buy`,
  `Book::lowest_sell`) are represented by the tick index of the limit: a
  limit lives at exactly one slot of one side's sparse set and is never
  moved, so the tick identifies the object.
* `Book`'s two `SparseSet<Limit*>` members are modelled as `Nat → Option Limit`
  together with the page count (`buy_pages`, `sell_pages`), which determines
  `SparseSet::size()` — the bound of the best-ask rescan in `Book::detach`.
  The directory is given its documented sentinel semantics here (unwritten
  slot reads as null); the byte-level initialisation defect of the real
  `SparseSet` is treated separately by the `SparseSet` section below.
-/

namespace CLOB

/-! ## Association-list maps (model of `std::unordered_map`) -/

/-- Lookup in an association list (first matching key wins). -/
def alookup {κ β : Type} [DecidableEq κ] : List (κ × β) → κ → Option β
  | [], _ => none
  | (k, v) :: rest, key => if key = k then some v else alookup rest key

/-- `m[k] = v`: replace the binding of `k` if present, otherwise add it. -/
def aset {κ β : Type} [DecidableEq κ] : List (κ × β) → κ → β → List (κ × β)
  | [], key, v => [(key, v)]
  | (k, w) :: rest, key, v =>
      if key = k then (k, v) :: rest else (k, w) :: aset rest key v

/-- `m.erase(k)`: drop the binding of `k` (the first one; keys are unique in
every reachable state). -/
def aerase {κ β : Type} [DecidableEq κ] : List (κ × β) → κ → List (κ × β)
  | [], _ => []
  | (k, w) :: rest, key =>
      if key = k then rest else (k, w) :: aerase rest key

/-! ## `SparseSet<T>` (include/sparse_set.hpp), byte-accurate page model

The element type `T` is modelled as a numeric value (`Int`): for
`T = Limit*` the value is the pointer bits, whose sentinel ("0-Equivalent
value" in the source's words) is `0`.

`Page::Page(size_t size)` runs `container = new T[size]; memset(container, 0,
size);`.  `new T[size]` leaves scalar elements indeterminate, and `memset`
zeroes `size` *bytes*, i.e. only the first `size / sizeof(T)` element slots
of the `size`-element array.  Indeterminate slots are modelled by an
arbitrary `junk` function fixed at construction: a slot is `0` when its
bytes lie inside the memset range, and `junk offset` otherwise. -/

namespace SparseSet

/-- One `Page` of element values, freshly constructed with
`new T[size]; memset(container, 0, size)` where `size` counts elements of
width `sizeofT` bytes but `memset` is given `size` bytes. -/
def freshPage (size sizeofT : Nat) (junk : Nat → Int) : Nat → Int :=
  fun off => if (off + 1) * sizeofT ≤ size then 0 else junk off

/-- `SparseSet<T>` state: PAGE_SIZE, sizeof(T), the indeterminate-memory
source, and the page table (`vector<Page*>`; `none` = null slot). -/
structure SSet where
  page_size : Nat
  sizeofT : Nat
  junk : Nat → Int
  pages : List (Option (Nat → Int))

/-- `SparseSet<T>::SparseSet(size_t size, size_t page_size)`: allocates
`size / page_size + 1` fresh pages. -/
def SSet.new (size : Nat) (sizeofT : Nat) (junk : Nat → Int)
    (page_size : Nat := 4096) : SSet :=
  { page_size := page_size
    sizeofT := sizeofT
    junk := junk
    pages := List.replicate (size / page_size + 1)
      (some (freshPage page_size sizeofT junk)) }

/-- `SparseSet<T>::operator[](uint64_t index)`: returns the element, or the
sentinel `0` when the page index is out of range or the page slot is null.
(`index >> PAGE_IDX_SHIFTER` equals `index / page_size` for the power-of-two
page sizes the source uses.) -/
def SSet.get (s : SSet) (index : Nat) : Int :=
  let pageIdx := index / s.page_size
  let inPageIdx := index % s.page_size
  if pageIdx < s.pages.length then
    match s.pages.getD pageIdx none with
    | none => 0
    | some pg => pg inPageIdx
  else 0

/-- `SparseSet<T>::insert(uint64_t index, T element)`: grows the page table
to `PAGE_IDX * 2` null slots when the page index is out of range (the call
sites always have `PAGE_IDX ≥ pages.size() ≥ 1` there, so the table grows),
allocates a fresh page into a null slot, and writes the element. -/
def SSet.insert (s : SSet) (index : Nat) (element : Int) : SSet :=
  let pageIdx := index / s.page_size
  let inPageIdx := index % s.page_size
  let pages1 :=
    if pageIdx < s.pages.length then s.pages
    else s.pages ++ List.replicate (pageIdx * 2 - s.pages.length) none
  let pg :=
    match pages1.getD pageIdx none with
    | none => freshPage s.page_size s.sizeofT s.junk
    | some pg => pg
  let pg1 := fun off => if off = inPageIdx then element else pg off
  { s with pages := pages1.set pageIdx (some pg1) }

end SparseSet

/-! ## Data model (include/types.hpp, include/clob.hpp) -/

/-- `enum class Side { Buy, Sell }`. -/
inductive Side where
  | Buy : Side
  | Sell : Side
deriving DecidableEq, Repr

/-- `TradeDS::Order` value part: id, side, price, volume.  The `limit`,
`prev`, `next` back-pointers are represented structurally: an order's limit
is the level at `(side, price / unit)`, and its chain position is its
position in that level's `queue`. -/
structure Order where
  order_id : Nat
  side : Side
  price : Int
  volume : Int
deriving DecidableEq, Repr

/-- `struct Fill { other_order_id; trade_price; trade_volume }`. -/
structure Fill where
  other_order_id : Nat
  trade_price : Int
  trade_volume : Int
deriving DecidableEq, Repr

/-- `TradeDS::Limit`: one price level.  `queue` lists the resting order ids
from `front_order` (highest priority) to `tail_order`; `size` and `volume`
are the explicit counters the source maintains alongside the chain. -/
structure Limit where
  price : Int
  size : Nat
  volume : Int
  queue : List Nat
deriving DecidableEq, Repr

/-- `TradeDS::Book`.  The two `SparseSet<Limit*>` members are the
`*_levels` maps (tick → limit) plus the `*_pages` page counts that determine
`SparseSet::size() = 4096 * pages`; `highest_buy` / `lowest_sell` hold the
tick of the cached best limit (`nullptr` = `none`). -/
structure Book where
  symbol : String
  unit : Int
  orders : List (Nat × Order)
  buy_levels : Nat → Option Limit
  sell_levels : Nat → Option Limit
  buy_pages : Nat
  sell_pages : Nat
  order_count : Nat
  buy_volume : Int
  sell_volume : Int
  highest_buy : Option Nat
  lowest_sell : Option Nat

/-- `Book::Book(symbol, unit)`: empty maps, `new SparseSet<Limit*>(4096)`
per side (which allocates `4096/4096 + 1 = 2` pages), zero counters, null
best pointers. -/
def Book.new (symbol : String) (unit : Int) : Book :=
  { symbol := symbol
    unit := unit
    orders := []
    buy_levels := fun _ => none
    sell_levels := fun _ => none
    buy_pages := 2
    sell_pages := 2
    order_count := 0
    buy_volume := 0
    sell_volume := 0
    highest_buy := none
    lowest_sell := none }

/-- The level directory of one side. -/
def Book.levelsOf (b : Book) : Side → (Nat → Option Limit)
  | Side.Buy => b.buy_levels
  | Side.Sell => b.sell_levels

/-- The page count of one side's sparse set. -/
def Book.pagesOf (b : Book) : Side → Nat
  | Side.Buy => b.buy_pages
  | Side.Sell => b.sell_pages

/-- The aggregate volume counter of one side (`buy_volume` / `sell_volume`). -/
def Book.volumeOf (b : Book) : Side → Int
  | Side.Buy => b.buy_volume
  | Side.Sell => b.sell_volume

/-- The cached best pointer of one side (`highest_buy` / `lowest_sell`). -/
def Book.bestOf (b : Book) : Side → Option Nat
  | Side.Buy => b.highest_buy
  | Side.Sell => b.lowest_sell

/-- Replace one side's directory, page count, volume counter and best
pointer, leaving the opposite side and the shared fields alone. -/
def Book.withSide (b : Book) (s : Side) (levels : Nat → Option Limit)
    (pages : Nat) (svol : Int) (best : Option Nat) : Book :=
  match s with
  | Side.Buy =>
      { b with buy_levels := levels, buy_pages := pages,
               buy_volume := svol, highest_buy := best }
  | Side.Sell =>
      { b with sell_levels := levels, sell_pages := pages,
               sell_volume := svol, lowest_sell := best }

/-- The tick index of a price: `(int64_t)(price / unit)`.  Every book the
engine creates has `unit = 1` and receives only positive integer prices, so
the `double` division of the source is exact and non-negative. -/
def Book.tickOf (b : Book) (price : Int) : Nat := (price / b.unit).toNat

/-- The `size` field of the limit a tick points at (`0` for a null slot). -/
def sizeAt (levels : Nat → Option Limit) (t : Nat) : Nat :=
  match levels t with
  | some L => L.size
  | none => 0

/-- The `price` field of the limit a tick points at (`0` for a null slot;
the source only dereferences non-null best pointers here). -/
def limitPriceAt (levels : Nat → Option Limit) (t : Nat) : Int :=
  match levels t with
  | some L => L.price
  | none => 0

/-- `SparseSet::insert`'s page-table growth, observed through `size()`:
writing at `tick` with `PAGE_IDX = tick / 4096` resizes the table to
`PAGE_IDX * 2` entries when `PAGE_IDX` is out of range. -/
def growPages (pages tick : Nat) : Nat :=
  let pageIdx := tick / 4096
  if pageIdx < pages then pages else pageIdx * 2

/-- `Book::exist(order_id)`. -/
def Book.exist (b : Book) (order_id : Nat) : Bool :=
  (alookup b.orders order_id).isSome

/-- `Book::get_order_by_id(order_id)`: a value copy of the order, or the
zero record `Order{0, Side::Buy, 0, 0}`. -/
def Book.get_order_by_id (b : Book) (order_id : Nat) : Order :=
  match alookup b.orders order_id with
  | none => { order_id := 0, side := Side.Buy, price := 0, volume := 0 }
  | some o => o

/-- `Book::get_best_offer_id(side)`: the front order of the *opposite*
side's cached best limit — for `side == Buy` the head of `lowest_sell`, for
`side == Sell` the head of `highest_buy`; `0` when the pointer is null or
the level has no front order. -/
def Book.get_best_offer_id (b : Book) (side : Side) : Nat :=
  match side with
  | Side.Buy =>
      match b.lowest_sell with
      | none => 0
      | some t =>
          match b.sell_levels t with
          | none => 0
          | some L => L.queue.headD 0
  | Side.Sell =>
      match b.highest_buy with
      | none => 0
      | some t =>
          match b.buy_levels t with
          | none => 0
          | some L => L.queue.headD 0

/-- `Book::insert(Order*)`: reject on duplicate id or misaligned price;
append the order at the tail of its side's limit at `price / unit`
(creating the limit, and growing the sparse set, when absent); bump the
level's and the book's counters; adopt the limit as the side's best when
there is no best yet or its price is strictly better. -/
def Book.insert (b : Book) (new_order : Order) : Option Book :=
  if (alookup b.orders new_order.order_id).isSome then none
  else if new_order.price % b.unit ≠ 0 then none
  else
    let s := new_order.side
    let tick := b.tickOf new_order.price
    let levels := b.levelsOf s
    let (target_limit, created) :=
      match levels tick with
      | none => ({ price := new_order.price, size := 0, volume := 0,
                   queue := [] : Limit }, true)
      | some L => (L, false)
    let limit1 : Limit :=
      { target_limit with
        queue := target_limit.queue ++ [new_order.order_id]
        size := target_limit.size + 1
        volume := target_limit.volume + new_order.volume }
    let levels1 := fun t => if t = tick then some limit1 else levels t
    let pages1 := if created then growPages (b.pagesOf s) tick else b.pagesOf s
    let best1 :=
      match b.bestOf s with
      | none => some tick
      | some cur =>
          match s with
          | Side.Buy =>
              if limitPriceAt levels1 cur ≥ limit1.price then some cur else some tick
          | Side.Sell =>
              if limitPriceAt levels1 cur ≤ limit1.price then some cur else some tick
    some { b.withSide s levels1 pages1 (b.volumeOf s + new_order.volume) best1 with
           orders := aset b.orders new_order.order_id new_order
           order_count := b.order_count + 1 }

/-- The best-bid rescan of `Book::detach`: after the cached best buy level
empties, scan ticks `tick - 1, tick - 2, …, 0` (the source then also reads
tick `-1`, which the sparse set answers with null) and return the first
non-null, non-empty level's tick. -/
def scanDown (levels : Nat → Option Limit) : Nat → Option Nat
  | 0 => none
  | t + 1 =>
      match levels t with
      | some L => if 0 < L.size then some t else scanDown levels t
      | none => scanDown levels t

/-- The best-ask rescan of `Book::detach`: scan ticks `start + 1, start + 2,
…` while the previous tick is `≤ MAX_LIMIT_IDX = sell_set->size() - 1`, so
the last tick read is `sell_set->size()`; `fuel` is the number of reads
left. -/
def scanUpFrom (levels : Nat → Option Limit) : Nat → Nat → Option Nat
  | _, 0 => none
  | t, fuel + 1 =>
      match levels (t + 1) with
      | some L => if 0 < L.size then some (t + 1) else scanUpFrom levels (t + 1) fuel
      | none => scanUpFrom levels (t + 1) fuel

/-- `Book::detach(order_id)`: reject when absent; erase the order from the
id index and splice it out of its limit's chain (the four pointer cases all
remove the unique occurrence of the id from the queue); decrement the
limit's and the book's counters; when the side's cached best limit has
become empty, rescan for the next non-empty level (downward from the
detached order's tick for buys, upward bounded by the sparse set's size for
sells).  The source dereferences the best pointer unconditionally on the
detached side; it is non-null in every well-formed book with a resting
order on that side, and the model keeps it unchanged otherwise. -/
def Book.detach (b : Book) (order_id : Nat) : Option (Order × Book) :=
  match alookup b.orders order_id with
  | none => none
  | some target_order =>
      let s := target_order.side
      let tick := b.tickOf target_order.price
      let levels := b.levelsOf s
      let target_limit := (levels tick).getD
        { price := target_order.price, size := 0, volume := 0, queue := [] }
      let limit1 : Limit :=
        { target_limit with
          queue := target_limit.queue.erase order_id
          size := target_limit.size - 1
          volume := target_limit.volume - target_order.volume }
      let levels1 := fun t => if t = tick then some limit1 else levels t
      let best1 :=
        match b.bestOf s with
        | none => none
        | some cur =>
            if sizeAt levels1 cur = 0 then
              match s with
              | Side.Buy => scanDown levels1 tick
              | Side.Sell => scanUpFrom levels1 tick (4096 * b.pagesOf s - tick)
            else some cur
      some (target_order,
        { b.withSide s levels1 (b.pagesOf s)
            (b.volumeOf s - target_order.volume) best1 with
          orders := aerase b.orders order_id
          order_count := b.order_count - 1 })

/-- `Book::remove(order_id)`: detach and destroy; `false` when absent. -/
def Book.remove (b : Book) (order_id : Nat) : Bool × Book :=
  match b.detach order_id with
  | some (_, b1) => (true, b1)
  | none => (false, b)

/-- `Book::amend(order_id, new_price, new_volume)`: reject when absent or
misaligned; on a price change detach, overwrite price and volume, and
re-insert; on the same price adjust the order's volume in place together
with the owning limit's volume and the side's volume (by the signed
difference `new_volume - old_volume`, which the source computes through an
exact `uint64_t` subtraction and `int64_t` cast). -/
def Book.amend (b : Book) (order_id : Nat) (new_price new_volume : Int) :
    Option Book :=
  if ¬ (alookup b.orders order_id).isSome then none
  else if new_price % b.unit ≠ 0 then none
  else
    let target_order := (alookup b.orders order_id).getD
      { order_id := 0, side := Side.Buy, price := 0, volume := 0 }
    if target_order.price ≠ new_price then
      match b.detach order_id with
      | none => none
      | some (od, b1) =>
          some ((b1.insert
            { od with price := new_price, volume := new_volume }).getD b1)
    else
      let s := target_order.side
      let tick := b.tickOf target_order.price
      let levels := b.levelsOf s
      let target_limit := (levels tick).getD
        { price := target_order.price, size := 0, volume := 0, queue := [] }
      let volume_diff := new_volume - target_order.volume
      let limit1 := { target_limit with volume := target_limit.volume + volume_diff }
      let levels1 := fun t => if t = tick then some limit1 else levels t
      some { b.withSide s levels1 (b.pagesOf s)
               (b.volumeOf s + volume_diff) (b.bestOf s) with
             orders := aset b.orders order_id
               { target_order with volume := new_volume }
             order_count := b.order_count }

/-! ### Unfolded success-case forms of the book operations

`insertResult`, `detachResult` and `amendVolResult` name the book produced
by the success case of `Book.insert`, `Book.detach` and the same-price
branch of `Book.amend`; the `insert_eq` / `detach_eq` / `amend_eq_same`
theorems below prove them equal to the operations.  They exist only to give
the invariant proofs a stable record shape. -/

/-- The limit after `Book.insert` appends the order (fresh or existing). -/
def insertLimit (b : Book) (o : Order) : Limit :=
  match b.levelsOf o.side (b.tickOf o.price) with
  | none => { price := o.price, size := 1, volume := o.volume,
              queue := [o.order_id] }
  | some L => { price := L.price, size := L.size + 1,
                volume := L.volume + o.volume,
                queue := L.queue ++ [o.order_id] }

/-- The inserted side's directory after `Book.insert`. -/
def insertLevels (b : Book) (o : Order) : Nat → Option Limit :=
  fun t => if t = b.tickOf o.price then some (insertLimit b o)
           else b.levelsOf o.side t

/-- The inserted side's page count after `Book.insert` (the sparse set only
grows when the limit is created). -/
def insertPages (b : Book) (o : Order) : Nat :=
  match b.levelsOf o.side (b.tickOf o.price) with
  | none => growPages (b.pagesOf o.side) (b.tickOf o.price)
  | some _ => b.pagesOf o.side

/-- The inserted side's best pointer after `Book.insert`. -/
def insertBest (b : Book) (o : Order) : Option Nat :=
  match b.bestOf o.side with
  | none => some (b.tickOf o.price)
  | some cur =>
      match o.side with
      | Side.Buy =>
          if limitPriceAt (insertLevels b o) cur ≥ (insertLimit b o).price
          then some cur else some (b.tickOf o.price)
      | Side.Sell =>
          if limitPriceAt (insertLevels b o) cur ≤ (insertLimit b o).price
          then some cur else some (b.tickOf o.price)

/-- The book produced by a successful `Book.insert`. -/
def insertResult (b : Book) (o : Order) : Book :=
  { b.withSide o.side (insertLevels b o) (insertPages b o)
      (b.volumeOf o.side + o.volume) (insertBest b o) with
    orders := aset b.orders o.order_id o
    order_count := b.order_count + 1 }

/-- The detached side's directory after `Book.detach` of the order `o`
stored under key `id`. -/
def detachLevels (b : Book) (id : Nat) (o : Order) : Nat → Option Limit :=
  let tick := b.tickOf o.price
  let target_limit := (b.levelsOf o.side tick).getD
    { price := o.price, size := 0, volume := 0, queue := [] }
  fun t => if t = tick then
      some { target_limit with
             queue := target_limit.queue.erase id
             size := target_limit.size - 1
             volume := target_limit.volume - o.volume }
    else b.levelsOf o.side t

/-- The detached side's best pointer after `Book.detach` of the order `o`
stored under key `id`. -/
def detachBest (b : Book) (id : Nat) (o : Order) : Option Nat :=
  match b.bestOf o.side with
  | none => none
  | some cur =>
      if sizeAt (detachLevels b id o) cur = 0 then
        match o.side with
        | Side.Buy => scanDown (detachLevels b id o) (b.tickOf o.price)
        | Side.Sell => scanUpFrom (detachLevels b id o) (b.tickOf o.price)
            (4096 * b.pagesOf o.side - b.tickOf o.price)
      else some cur

/-- The book produced by a successful `Book.detach` of the order `o` stored
under key `id`. -/
def detachResult (b : Book) (id : Nat) (o : Order) : Book :=
  { b.withSide o.side (detachLevels b id o) (b.pagesOf o.side)
      (b.volumeOf o.side - o.volume) (detachBest b id o) with
    orders := aerase b.orders id
    order_count := b.order_count - 1 }

/-- The book produced by the same-price branch of `Book.amend` of the order
`o` stored under key `id`, to volume `new_volume`. -/
def amendVolResult (b : Book) (id : Nat) (o : Order) (new_volume : Int) : Book :=
  let tick := b.tickOf o.price
  let target_limit := (b.levelsOf o.side tick).getD
    { price := o.price, size := 0, volume := 0, queue := [] }
  { b.withSide o.side
      (fun t => if t = tick then
          some { target_limit with
                 volume := target_limit.volume + (new_volume - o.volume) }
        else b.levelsOf o.side t)
      (b.pagesOf o.side) (b.volumeOf o.side + (new_volume - o.volume))
      (b.bestOf o.side) with
    orders := aset b.orders id { o with volume := new_volume }
    order_count := b.order_count }

/-! ## MatchingEngine (src/matching_engine.cpp) -/

/-- `MatchingEngine` state: `books` (symbol → book) and `order_book_map`
(order id → owning book).  A `Book*` in the map is represented by the
book's symbol: books are created once per symbol, never destroyed and never
re-keyed, so the symbol identifies the pointee, and mutation through either
pointer is an update of `books` at that symbol. -/
structure Engine where
  books : List (String × Book)
  order_book_map : List (Nat × String)

/-- `MatchingEngine()`: empty registries. -/
def Engine.empty : Engine := { books := [], order_book_map := [] }

/-- The matching loop of `MatchingEngine::add_order` (`while (volume > 0)`).
Each iteration reads the best counter order; stops when none exists or the
prices no longer cross; a counter order larger than the remainder is
amended down in place (and the remainder becomes 0); otherwise the counter
order is removed from the book — but not from `order_book_map` — and its
volume is subtracted.  `fuel` bounds the iterations: the loop continues
only after removing a resting order, so `order_count + 1` at entry is
enough fuel for every execution.  The `uint64_t` casts of the source
(`best_price`, `best_volume`, the `volume` comparisons under `volume > 0`)
are exact on the values reached and are modelled as plain `Int`. -/
def addOrderLoop (side : Side) (price : Int) :
    Nat → Book → Int → List Fill → Book × Int × List Fill
  | 0, book, volume, fills => (book, volume, fills)
  | fuel + 1, book, volume, fills =>
      if volume > 0 then
        let best := book.get_order_by_id (book.get_best_offer_id side)
        if best.order_id = 0 then (book, volume, fills)
        else
          if (side = Side.Buy ∧ best.price ≤ price) ∨
             (side = Side.Sell ∧ best.price ≥ price) then
            if best.volume > volume then
              let book1 :=
                (book.amend best.order_id best.price (best.volume - volume)).getD book
              (book1, 0, fills ++ [{ other_order_id := best.order_id,
                                     trade_price := best.price,
                                     trade_volume := volume }])
            else
              let book1 := (book.remove best.order_id).2
              addOrderLoop side price fuel book1 (volume - best.volume)
                (fills ++ [{ other_order_id := best.order_id,
                             trade_price := best.price,
                             trade_volume := best.volume }])
          else (book, volume, fills)
      else (book, volume, fills)

/-- `MatchingEngine::add_order`: validate (non-zero id, id unknown to
`order_book_map`, non-empty symbol, positive price and volume); create the
book (unit 1) and rest the order when the symbol is new; otherwise run the
matching loop against the opposite side and rest any positive remainder,
registering the rested order in `order_book_map`.  The fills produced by
this call are returned (the source appends them to a caller-supplied
vector). -/
def Engine.add_order (e : Engine) (order_id : Nat) (symbol : String)
    (side : Side) (price volume : Int) : Bool × Engine × List Fill :=
  if order_id = 0 then (false, e, [])
  else if (alookup e.order_book_map order_id).isSome then (false, e, [])
  else if symbol = "" then (false, e, [])
  else if price ≤ 0 then (false, e, [])
  else if volume ≤ 0 then (false, e, [])
  else
    match alookup e.books symbol with
    | none =>
        let new_book := Book.new symbol 1
        let book1 :=
          ((new_book.insert
            { order_id := order_id, side := side,
              price := price, volume := volume }).getD new_book)
        (true,
         { books := aset e.books symbol book1
           order_book_map := aset e.order_book_map order_id symbol }, [])
    | some target_book =>
        let r := addOrderLoop side price (target_book.order_count + 1)
          target_book volume []
        if r.2.1 > 0 then
          let book2 :=
            ((r.1.insert
              { order_id := order_id, side := side,
                price := price, volume := r.2.1 }).getD r.1)
          (true,
           { books := aset e.books symbol book2
             order_book_map := aset e.order_book_map order_id symbol }, r.2.2)
        else
          (true,
           { books := aset e.books symbol r.1
             order_book_map := e.order_book_map }, r.2.2)

/-- `MatchingEngine::pull_order`: `false` when the id is unknown to
`order_book_map`; otherwise erase the map entry, call `remove` on the
owning book discarding its result, and return `true`. -/
def Engine.pull_order (e : Engine) (order_id : Nat) : Bool × Engine :=
  match alookup e.order_book_map order_id with
  | none => (false, e)
  | some sym =>
      let map1 := aerase e.order_book_map order_id
      match alookup e.books sym with
      | none =>
          -- unreachable: `order_book_map` only ever names registered books
          (true, { books := e.books, order_book_map := map1 })
      | some target_book =>
          let r := target_book.remove order_id
          (true, { books := aset e.books sym r.2, order_book_map := map1 })

/-- `MatchingEngine::amend_order`: reject when the id is unknown; the source
then checks `new_price <= 0` *twice* — the volume is never validated.  When
the price is unchanged and the volume does not grow (a `uint64_t`
comparison, modelled with the explicit `% 2^64` conversion), amend in place
on the book; otherwise pull the order and re-add it (re-running matching)
with the symbol and side taken from the snapshot copy. -/
def Engine.amend_order (e : Engine) (order_id : Nat)
    (new_price new_active_volume : Int) : Bool × Engine × List Fill :=
  match alookup e.order_book_map order_id with
  | none => (false, e, [])
  | some sym =>
      if new_price ≤ 0 then (false, e, [])
      else if new_price ≤ 0 then (false, e, [])
      else
        match alookup e.books sym with
        | none =>
            -- unreachable: `order_book_map` only ever names registered books
            (false, e, [])
        | some target_book =>
            let copy := target_book.get_order_by_id order_id
            if copy.price = new_price ∧
               copy.volume ≥ new_active_volume % (2 ^ 64 : Int) then
              let book1 :=
                (target_book.amend order_id new_price
                  (new_active_volume % (2 ^ 64 : Int))).getD target_book
              (true,
               { books := aset e.books sym book1
                 order_book_map := e.order_book_map }, [])
            else
              let e1 := (e.pull_order order_id).2
              let r := e1.add_order order_id target_book.symbol copy.side
                new_price new_active_volume
              (true, r.2.1, r.2.2)

/-! ## Derived quantities and invariants -/

/-- Sum of the volumes of the orders named by a queue of ids (each id of a
well-formed queue resolves in `orders`). -/
def queueVolume (orders : List (Nat × Order)) (q : List Nat) : Int :=
  (q.map (fun id =>
    ((alookup orders id).getD
      { order_id := 0, side := Side.Buy, price := 0, volume := 0 }).volume)).sum

/-- Sum of the volumes of the resting orders of one side. -/
def sideVolume (orders : List (Nat × Order)) (s : Side) : Int :=
  (orders.map (fun p => if p.2.side = s then p.2.volume else 0)).sum

/-- Tick `t` is at least as good as tick `t2` on side `s`: higher-or-equal
for buys, lower-or-equal for sells. -/
def tickBetterEq (s : Side) (t t2 : Nat) : Prop :=
  match s with
  | Side.Buy => t2 ≤ t
  | Side.Sell => t ≤ t2

/-- Well-formedness of a book, as maintained by the engine: all the coupled
indices (id map, level queues, counters, cached best pointers) agree. -/
structure WFBook (b : Book) : Prop where
  unit_one : b.unit = 1
  keys_nodup : (b.orders.map Prod.fst).Nodup
  key_match : ∀ p ∈ b.orders, (p.2 : Order).order_id = p.1
  price_pos : ∀ p ∈ b.orders, 0 < (p.2 : Order).price
  vol_nonneg : ∀ p ∈ b.orders, 0 ≤ (p.2 : Order).volume
  in_queue : ∀ p ∈ b.orders,
      ∃ L, b.levelsOf (p.2 : Order).side (b.tickOf (p.2 : Order).price) = some L ∧
        p.1 ∈ L.queue
  level_price : ∀ s t L, b.levelsOf s t = some L → L.price = (t : Int)
  level_nodup : ∀ s t L, b.levelsOf s t = some L → L.queue.Nodup
  level_size : ∀ s t L, b.levelsOf s t = some L → L.size = L.queue.length
  level_vol : ∀ s t L, b.levelsOf s t = some L →
      L.volume = queueVolume b.orders L.queue
  level_members : ∀ s t L, b.levelsOf s t = some L → ∀ id ∈ L.queue,
      ∃ o, alookup b.orders id = some o ∧ o.side = s ∧ b.tickOf o.price = t
  level_bound : ∀ s t L, b.levelsOf s t = some L → t < 4096 * b.pagesOf s
  pages_ge : ∀ s, 2 ≤ b.pagesOf s
  count_eq : b.order_count = b.orders.length
  bvol_eq : b.buy_volume = sideVolume b.orders Side.Buy
  svol_eq : b.sell_volume = sideVolume b.orders Side.Sell
  best_some : ∀ s t, b.bestOf s = some t →
      ∃ L, b.levelsOf s t = some L ∧ 0 < L.size ∧
        ∀ t2 L2, b.levelsOf s t2 = some L2 → 0 < L2.size → tickBetterEq s t t2
  best_none : ∀ s, b.bestOf s = none →
      ∀ t L, b.levelsOf s t = some L → L.size = 0

/-- Well-formedness of the engine: registry keys are unique, each book is
keyed by its own symbol with unit 1 and is well formed, and every
`order_book_map` entry names a registered book. -/
structure WFEngine (e : Engine) : Prop where
  books_nodup : (e.books.map Prod.fst).Nodup
  map_nodup : (e.order_book_map.map Prod.fst).Nodup
  book_wf : ∀ p ∈ e.books, (p.2 : Book).symbol = p.1 ∧ (p.2 : Book).unit = 1 ∧
      WFBook p.2
  map_books : ∀ q ∈ e.order_book_map,
      ∃ b, alookup e.books (q.2 : String) = some b

/-- The best-pointer property of claim C6, phrased on level prices as the
spec does: a set best pointer names a non-empty level whose price is at
least (buys) / at most (sells) that of every other non-empty level of its
side, and a side with any non-empty level has its pointer set. -/
def BestOk (b : Book) : Prop :=
  (∀ t, b.highest_buy = some t →
    ∃ L, b.buy_levels t = some L ∧ 0 < L.size ∧
      ∀ t2 L2, b.buy_levels t2 = some L2 → 0 < L2.size → L2.price ≤ L.price) ∧
  (∀ t, b.lowest_sell = some t →
    ∃ L, b.sell_levels t = some L ∧ 0 < L.size ∧
      ∀ t2 L2, b.sell_levels t2 = some L2 → 0 < L2.size → L.price ≤ L2.price) ∧
  (∀ t L, b.buy_levels t = some L → 0 < L.size → b.highest_buy.isSome = true) ∧
  (∀ t L, b.sell_levels t = some L → 0 < L.size → b.lowest_sell.isSome = true)

/-- Engine states reachable from `MatchingEngine()` by the public
operations with arbitrary arguments. -/
inductive Reachable : Engine → Prop where
  | empty : Reachable Engine.empty
  | add (e : Engine) (order_id : Nat) (symbol : String) (side : Side)
      (price volume : Int) : Reachable e →
      Reachable (e.add_order order_id symbol side price volume).2.1
  | amend (e : Engine) (order_id : Nat) (new_price new_volume : Int) :
      Reachable e →
      Reachable (e.amend_order order_id new_price new_volume).2.1
  | pull (e : Engine) (order_id : Nat) : Reachable e →
      Reachable (e.pull_order order_id).2

/-! ## Theorems: association-list maps -/

theorem alookup_aset_self {κ β : Type} [DecidableEq κ]
    (l : List (κ × β)) (k : κ) (v : β) : alookup (aset l k v) k = some v := by
  induction l with
  | nil => simp [aset, alookup]
  | cons p rest ih =>
      obtain ⟨k', w⟩ := p
      by_cases h : k = k' <;> simp [aset, alookup, h, ih]

theorem alookup_aset_ne {κ β : Type} [DecidableEq κ]
    (l : List (κ × β)) (k k' : κ) (v : β) (h : k' ≠ k) :
    alookup (aset l k v) k' = alookup l k' := by
  induction l with
  | nil => simp [aset, alookup, h]
  | cons p rest ih =>
      obtain ⟨k₀, w⟩ := p
      by_cases hk : k = k₀
      · subst hk; simp [aset, alookup, h]
      · by_cases hk' : k' = k₀ <;> simp [aset, alookup, hk, hk', ih]

theorem alookup_eq_none_of_not_mem {κ β : Type} [DecidableEq κ]
    (l : List (κ × β)) (k : κ) (h : k ∉ l.map Prod.fst) :
    alookup l k = none := by
  induction l with
  | nil => simp [alookup]
  | cons p rest ih =>
      obtain ⟨k₀, w⟩ := p
      simp only [List.map_cons, List.mem_cons] at h
      push_neg at h
      simp only [alookup, if_neg h.1]
      exact ih h.2

theorem alookup_aerase_self {κ β : Type} [DecidableEq κ]
    (l : List (κ × β)) (k : κ) (hnd : (l.map Prod.fst).Nodup) :
    alookup (aerase l k) k = none := by
  induction l with
  | nil => simp [aerase, alookup]
  | cons p rest ih =>
      obtain ⟨k₀, w⟩ := p
      simp only [List.map_cons, List.nodup_cons] at hnd
      by_cases hk : k = k₀
      · subst hk
        simp only [aerase, if_pos rfl]
        exact alookup_eq_none_of_not_mem rest _ hnd.1
      · simp only [aerase, if_neg hk, alookup, if_neg hk]
        exact ih hnd.2

theorem alookup_aerase_ne {κ β : Type} [DecidableEq κ]
    (l : List (κ × β)) (k k' : κ) (h : k' ≠ k) :
    alookup (aerase l k) k' = alookup l k' := by
  induction l with
  | nil => simp [aerase]
  | cons p rest ih =>
      obtain ⟨k₀, w⟩ := p
      by_cases hk : k = k₀
      · subst hk; simp [aerase, alookup, if_neg h]
      · by_cases hk' : k' = k₀ <;> simp [aerase, alookup, hk, hk', ih]

theorem alookup_isSome_iff {κ β : Type} [DecidableEq κ]
    (l : List (κ × β)) (k : κ) :
    (alookup l k).isSome = true ↔ k ∈ l.map Prod.fst := by
  induction l with
  | nil => simp [alookup]
  | cons p rest ih =>
      obtain ⟨k₀, w⟩ := p
      by_cases h : k = k₀ <;> simp [alookup, h, ih]

theorem mem_of_alookup {κ β : Type} [DecidableEq κ]
    {l : List (κ × β)} {k : κ} {v : β} (h : alookup l k = some v) :
    (k, v) ∈ l := by
  induction l with
  | nil => simp [alookup] at h
  | cons p rest ih =>
      obtain ⟨k₀, w⟩ := p
      by_cases hk : k = k₀
      · subst hk
        simp only [alookup, if_true, eq_self_iff_true, Option.some.injEq] at h
        subst h; exact List.mem_cons_self _ _
      · simp only [alookup, if_neg hk] at h
        exact List.mem_cons_of_mem _ (ih h)

theorem aset_of_not_mem {κ β : Type} [DecidableEq κ]
    {l : List (κ × β)} {k : κ} (v : β) (h : k ∉ l.map Prod.fst) :
    aset l k v = l ++ [(k, v)] := by
  induction l with
  | nil => simp [aset]
  | cons p rest ih =>
      obtain ⟨k₀, w⟩ := p
      simp only [List.map_cons, List.mem_cons] at h
      push_neg at h
      simp [aset, if_neg h.1, ih h.2]

theorem aset_keys_of_mem {κ β : Type} [DecidableEq κ]
    {l : List (κ × β)} {k : κ} (v : β) (h : k ∈ l.map Prod.fst) :
    (aset l k v).map Prod.fst = l.map Prod.fst := by
  induction l with
  | nil => simp at h
  | cons p rest ih =>
      obtain ⟨k₀, w⟩ := p
      by_cases hk : k = k₀
      · subst hk; simp [aset]
      · simp only [List.map_cons, List.mem_cons, hk, false_or] at h
        simp [aset, if_neg hk, ih h]

theorem aerase_sublist {κ β : Type} [DecidableEq κ]
    (l : List (κ × β)) (k : κ) : (aerase l k).Sublist l := by
  induction l with
  | nil => simp [aerase]
  | cons p rest ih =>
      obtain ⟨k₀, w⟩ := p
      by_cases hk : k = k₀
      · simp only [aerase, if_pos hk]
        exact (List.sublist_cons_self _ _)
      · simp only [aerase, if_neg hk]
        exact ih.cons₂ _

theorem aerase_of_not_mem {κ β : Type} [DecidableEq κ]
    {l : List (κ × β)} {k : κ} (h : k ∉ l.map Prod.fst) :
    aerase l k = l := by
  induction l with
  | nil => simp [aerase]
  | cons p rest ih =>
      obtain ⟨k₀, w⟩ := p
      simp only [List.map_cons, List.mem_cons] at h
      push_neg at h
      simp [aerase, if_neg h.1, ih h.2]

theorem perm_cons_aerase {κ β : Type} [DecidableEq κ]
    {l : List (κ × β)} {k : κ} {v : β} (h : alookup l k = some v) :
    l.Perm ((k, v) :: aerase l k) := by
  induction l with
  | nil => simp [alookup] at h
  | cons p rest ih =>
      obtain ⟨k₀, w⟩ := p
      by_cases hk : k = k₀
      · subst hk
        simp only [alookup, if_true, eq_self_iff_true, Option.some.injEq] at h
        subst h
        simp [aerase]
      · simp only [alookup, if_neg hk] at h
        simp only [aerase, if_neg hk]
        exact ((ih h).cons _).trans (List.Perm.swap _ _ _)

theorem aset_self {κ β : Type} [DecidableEq κ]
    {l : List (κ × β)} {k : κ} {v : β} (h : alookup l k = some v) :
    aset l k v = l := by
  induction l with
  | nil => simp [alookup] at h
  | cons p rest ih =>
      obtain ⟨k₀, w⟩ := p
      by_cases hk : k = k₀
      · subst hk
        simp only [alookup, if_true, eq_self_iff_true, Option.some.injEq] at h
        simp [aset, h]
      · simp only [alookup, if_neg hk] at h
        simp [aset, if_neg hk, ih h]

/-! ## Theorems: volume sums -/

theorem sideVolume_perm {l l2 : List (Nat × Order)} (h : l.Perm l2) (s : Side) :
    sideVolume l s = sideVolume l2 s :=
  List.Perm.sum_eq (h.map _)

theorem sideVolume_cons (p : Nat × Order) (l : List (Nat × Order)) (s : Side) :
    sideVolume (p :: l) s =
      (if p.2.side = s then p.2.volume else 0) + sideVolume l s := by
  simp [sideVolume]

theorem sideVolume_append (l l2 : List (Nat × Order)) (s : Side) :
    sideVolume (l ++ l2) s = sideVolume l s + sideVolume l2 s := by
  simp [sideVolume]

theorem sideVolume_aset {l : List (Nat × Order)} {k : Nat} {o : Order}
    (h : alookup l k = some o) (o2 : Order) (s : Side) :
    sideVolume (aset l k o2) s =
      sideVolume l s - (if o.side = s then o.volume else 0)
        + (if o2.side = s then o2.volume else 0) := by
  induction l with
  | nil => simp [alookup] at h
  | cons p rest ih =>
      obtain ⟨k₀, w⟩ := p
      by_cases hk : k = k₀
      · subst hk
        simp only [alookup, if_true, eq_self_iff_true, Option.some.injEq] at h
        subst h
        simp only [aset, if_true, eq_self_iff_true, sideVolume_cons]
        ring
      · simp only [alookup, if_neg hk] at h
        simp only [aset, if_neg hk, sideVolume_cons, ih h]
        ring

theorem queueVolume_append (orders : List (Nat × Order)) (q q2 : List Nat) :
    queueVolume orders (q ++ q2) =
      queueVolume orders q + queueVolume orders q2 := by
  simp [queueVolume]

theorem queueVolume_perm (orders : List (Nat × Order)) {q q2 : List Nat}
    (h : q.Perm q2) : queueVolume orders q = queueVolume orders q2 :=
  List.Perm.sum_eq (h.map _)

theorem queueVolume_cons (orders : List (Nat × Order)) (id : Nat) (q : List Nat) :
    queueVolume orders (id :: q) =
      ((alookup orders id).getD
        { order_id := 0, side := Side.Buy, price := 0, volume := 0 }).volume
      + queueVolume orders q := by
  simp [queueVolume]

theorem queueVolume_congr {orders orders2 : List (Nat × Order)} {q : List Nat}
    (h : ∀ id ∈ q, alookup orders2 id = alookup orders id) :
    queueVolume orders2 q = queueVolume orders q := by
  induction q with
  | nil => simp [queueVolume]
  | cons id q ih =>
      rw [queueVolume_cons, queueVolume_cons, h id (List.mem_cons_self _ _),
        ih (fun i hi => h i (List.mem_cons_of_mem _ hi))]

theorem queueVolume_erase (orders : List (Nat × Order)) {q : List Nat}
    {id : Nat} (h : id ∈ q) :
    queueVolume orders (q.erase id) =
      queueVolume orders q -
      ((alookup orders id).getD
        { order_id := 0, side := Side.Buy, price := 0, volume := 0 }).volume := by
  have hperm := List.perm_cons_erase h
  rw [queueVolume_perm orders hperm, queueVolume_cons]
  ring

/-! ## Theorems: projections of a one-side book update -/

theorem upd_levelsOf (b : Book) (s : Side) (levels : Nat → Option Limit)
    (pages : Nat) (svol : Int) (best : Option Nat)
    (ords : List (Nat × Order)) (cnt : Nat) (s2 : Side) :
    ({ b.withSide s levels pages svol best with
       orders := ords, order_count := cnt } : Book).levelsOf s2 =
      if s2 = s then levels else b.levelsOf s2 := by
  cases s <;> cases s2 <;> simp [Book.withSide, Book.levelsOf]

theorem upd_pagesOf (b : Book) (s : Side) (levels : Nat → Option Limit)
    (pages : Nat) (svol : Int) (best : Option Nat)
    (ords : List (Nat × Order)) (cnt : Nat) (s2 : Side) :
    ({ b.withSide s levels pages svol best with
       orders := ords, order_count := cnt } : Book).pagesOf s2 =
      if s2 = s then pages else b.pagesOf s2 := by
  cases s <;> cases s2 <;> simp [Book.withSide, Book.pagesOf]

theorem upd_volumeOf (b : Book) (s : Side) (levels : Nat → Option Limit)
    (pages : Nat) (svol : Int) (best : Option Nat)
    (ords : List (Nat × Order)) (cnt : Nat) (s2 : Side) :
    ({ b.withSide s levels pages svol best with
       orders := ords, order_count := cnt } : Book).volumeOf s2 =
      if s2 = s then svol else b.volumeOf s2 := by
  cases s <;> cases s2 <;> simp [Book.withSide, Book.volumeOf]

theorem upd_bestOf (b : Book) (s : Side) (levels : Nat → Option Limit)
    (pages : Nat) (svol : Int) (best : Option Nat)
    (ords : List (Nat × Order)) (cnt : Nat) (s2 : Side) :
    ({ b.withSide s levels pages svol best with
       orders := ords, order_count := cnt } : Book).bestOf s2 =
      if s2 = s then best else b.bestOf s2 := by
  cases s <;> cases s2 <;> simp [Book.withSide, Book.bestOf]

theorem upd_orders (b : Book) (s : Side) (levels : Nat → Option Limit)
    (pages : Nat) (svol : Int) (best : Option Nat)
    (ords : List (Nat × Order)) (cnt : Nat) :
    ({ b.withSide s levels pages svol best with
       orders := ords, order_count := cnt } : Book).orders = ords := by
  cases s <;> rfl

theorem upd_count (b : Book) (s : Side) (levels : Nat → Option Limit)
    (pages : Nat) (svol : Int) (best : Option Nat)
    (ords : List (Nat × Order)) (cnt : Nat) :
    ({ b.withSide s levels pages svol best with
       orders := ords, order_count := cnt } : Book).order_count = cnt := by
  cases s <;> rfl

theorem upd_unit (b : Book) (s : Side) (levels : Nat → Option Limit)
    (pages : Nat) (svol : Int) (best : Option Nat)
    (ords : List (Nat × Order)) (cnt : Nat) :
    ({ b.withSide s levels pages svol best with
       orders := ords, order_count := cnt } : Book).unit = b.unit := by
  cases s <;> rfl

theorem upd_symbol (b : Book) (s : Side) (levels : Nat → Option Limit)
    (pages : Nat) (svol : Int) (best : Option Nat)
    (ords : List (Nat × Order)) (cnt : Nat) :
    ({ b.withSide s levels pages svol best with
       orders := ords, order_count := cnt } : Book).symbol = b.symbol := by
  cases s <;> rfl

theorem upd_tickOf (b : Book) (s : Side) (levels : Nat → Option Limit)
    (pages : Nat) (svol : Int) (best : Option Nat)
    (ords : List (Nat × Order)) (cnt : Nat) (p : Int) :
    ({ b.withSide s levels pages svol best with
       orders := ords, order_count := cnt } : Book).tickOf p = b.tickOf p := by
  cases s <;> rfl

theorem volumeOf_buy (b : Book) : b.volumeOf Side.Buy = b.buy_volume := rfl

theorem volumeOf_sell (b : Book) : b.volumeOf Side.Sell = b.sell_volume := rfl

/-! ## Theorems: rescan correctness -/

theorem scanDown_some {levels : Nat → Option Limit} :
    ∀ {n t : Nat}, scanDown levels n = some t →
      t < n ∧ 0 < sizeAt levels t ∧
        ∀ u, t < u → u < n → sizeAt levels u = 0 := by
  intro n
  induction n with
  | zero => intro t h; simp [scanDown] at h
  | succ n ih =>
      intro t h
      unfold scanDown at h
      cases hL : levels n with
      | some L =>
          simp only [hL] at h
          by_cases hs : 0 < L.size
          · rw [if_pos hs] at h
            cases h
            exact ⟨Nat.lt_succ_self _, by simp [sizeAt, hL, hs],
              fun u hu1 hu2 => absurd (Nat.lt_of_lt_of_le hu1 (Nat.le_of_lt_succ hu2))
                (lt_irrefl _)⟩
          · rw [if_neg hs] at h
            obtain ⟨h1, h2, h3⟩ := ih h
            refine ⟨Nat.lt_succ_of_lt h1, h2, fun u hu1 hu2 => ?_⟩
            rcases Nat.lt_succ_iff_lt_or_eq.mp hu2 with hu | hu
            · exact h3 u hu1 hu
            · subst hu
              simp [sizeAt, hL, Nat.eq_zero_of_not_pos hs]
      | none =>
          simp only [hL] at h
          obtain ⟨h1, h2, h3⟩ := ih h
          refine ⟨Nat.lt_succ_of_lt h1, h2, fun u hu1 hu2 => ?_⟩
          rcases Nat.lt_succ_iff_lt_or_eq.mp hu2 with hu | hu
          · exact h3 u hu1 hu
          · subst hu
            simp [sizeAt, hL]

theorem scanDown_none {levels : Nat → Option Limit} :
    ∀ {n : Nat}, scanDown levels n = none →
      ∀ u, u < n → sizeAt levels u = 0 := by
  intro n
  induction n with
  | zero => intro _ u hu; omega
  | succ n ih =>
      intro h u hu
      unfold scanDown at h
      cases hL : levels n with
      | some L =>
          simp only [hL] at h
          by_cases hs : 0 < L.size
          · rw [if_pos hs] at h; cases h
          · rw [if_neg hs] at h
            rcases Nat.lt_succ_iff_lt_or_eq.mp hu with hu2 | hu2
            · exact ih h u hu2
            · subst hu2
              simp [sizeAt, hL, Nat.eq_zero_of_not_pos hs]
      | none =>
          simp only [hL] at h
          rcases Nat.lt_succ_iff_lt_or_eq.mp hu with hu2 | hu2
          · exact ih h u hu2
          · subst hu2
            simp [sizeAt, hL]

theorem scanUpFrom_some {levels : Nat → Option Limit} :
    ∀ {fuel t r : Nat}, scanUpFrom levels t fuel = some r →
      t < r ∧ r ≤ t + fuel ∧ 0 < sizeAt levels r ∧
        ∀ u, t < u → u < r → sizeAt levels u = 0 := by
  intro fuel
  induction fuel with
  | zero => intro t r h; simp [scanUpFrom] at h
  | succ fuel ih =>
      intro t r h
      unfold scanUpFrom at h
      cases hL : levels (t + 1) with
      | some L =>
          simp only [hL] at h
          by_cases hs : 0 < L.size
          · rw [if_pos hs] at h
            cases h
            exact ⟨Nat.lt_succ_self _, by omega, by simp [sizeAt, hL, hs],
              fun u hu1 hu2 => by omega⟩
          · rw [if_neg hs] at h
            obtain ⟨h1, h2, h3, h4⟩ := ih h
            refine ⟨by omega, by omega, h3, fun u hu1 hu2 => ?_⟩
            by_cases hu : u = t + 1
            · subst hu
              simp [sizeAt, hL, Nat.eq_zero_of_not_pos hs]
            · exact h4 u (by omega) hu2
      | none =>
          simp only [hL] at h
          obtain ⟨h1, h2, h3, h4⟩ := ih h
          refine ⟨by omega, by omega, h3, fun u hu1 hu2 => ?_⟩
          by_cases hu : u = t + 1
          · subst hu
            simp [sizeAt, hL]
          · exact h4 u (by omega) hu2

theorem scanUpFrom_none {levels : Nat → Option Limit} :
    ∀ {fuel t : Nat}, scanUpFrom levels t fuel = none →
      ∀ u, t < u → u ≤ t + fuel → sizeAt levels u = 0 := by
  intro fuel
  induction fuel with
  | zero => intro t _ u hu1 hu2; omega
  | succ fuel ih =>
      intro t h u hu1 hu2
      unfold scanUpFrom at h
      cases hL : levels (t + 1) with
      | some L =>
          simp only [hL] at h
          by_cases hs : 0 < L.size
          · rw [if_pos hs] at h; cases h
          · rw [if_neg hs] at h
            by_cases hu : u = t + 1
            · subst hu
              simp [sizeAt, hL, Nat.eq_zero_of_not_pos hs]
            · exact ih h u (by omega) (by omega)
      | none =>
          simp only [hL] at h
          by_cases hu : u = t + 1
          · subst hu
            simp [sizeAt, hL]
          · exact ih h u (by omega) (by omega)

/-! ## Theorems: well-formedness is preserved by the book operations -/

theorem wfBook_new (symbol : String) : WFBook (Book.new symbol 1) := by
  refine ⟨rfl, ?_, ?_, ?_, ?_, ?_, ?_, ?_, ?_, ?_, ?_, ?_, ?_, ?_, ?_, ?_, ?_, ?_⟩
  · simp [Book.new]
  all_goals
    first
    | (intro s
       cases s <;> simp [Book.new, Book.levelsOf, Book.pagesOf, Book.bestOf])
    | (intro p hp
       simp [Book.new] at hp)
    | (intro s t L hL
       cases s <;> simp [Book.new, Book.levelsOf] at hL)
    | (intro s t hL
       cases s <;> simp [Book.new, Book.bestOf] at hL)
    | simp [Book.new, sideVolume]

theorem order_id_of_alookup {b : Book} (hb : WFBook b) {id : Nat} {o : Order}
    (h : alookup b.orders id = some o) : o.order_id = id :=
  hb.key_match (id, o) (mem_of_alookup h)

theorem not_mem_queue_of_alookup_none {b : Book} (hb : WFBook b) {id : Nat}
    {s : Side} {t : Nat} {L : Limit} (hL : b.levelsOf s t = some L)
    (hnone : alookup b.orders id = none) : id ∉ L.queue := by
  intro hmem
  obtain ⟨o, ho, -, -⟩ := hb.level_members s t L hL id hmem
  rw [hnone] at ho
  cases ho

theorem insertLevels_def (b : Book) (o : Order) :
    insertLevels b o =
      fun t => if t = b.tickOf o.price then some (insertLimit b o)
               else b.levelsOf o.side t := rfl

theorem detachLevels_def (b : Book) (id : Nat) (o : Order) :
    detachLevels b id o =
      (fun t => if t = b.tickOf o.price then
          some { (b.levelsOf o.side (b.tickOf o.price)).getD
                   { price := o.price, size := 0, volume := 0, queue := [] } with
                 queue := ((b.levelsOf o.side (b.tickOf o.price)).getD
                   { price := o.price, size := 0, volume := 0,
                     queue := [] }).queue.erase id
                 size := ((b.levelsOf o.side (b.tickOf o.price)).getD
                   { price := o.price, size := 0, volume := 0,
                     queue := [] }).size - 1
                 volume := ((b.levelsOf o.side (b.tickOf o.price)).getD
                   { price := o.price, size := 0, volume := 0,
                     queue := [] }).volume - o.volume }
        else b.levelsOf o.side t) := rfl

theorem insert_eq {b : Book} {o : Order}
    (hnone : alookup b.orders o.order_id = none)
    (hal : o.price % b.unit = 0) :
    b.insert o = some (insertResult b o) := by
  simp only [Book.insert, hnone, Option.isSome_none, Bool.false_eq_true,
    if_false, hal, ne_eq, not_true_eq_false]
  cases hM : b.levelsOf o.side (b.tickOf o.price) with
  | none =>
      simp only [insertResult, insertLevels_def, insertLimit, insertPages,
        insertBest, hM, if_true, Nat.zero_add, zero_add, List.nil_append]
  | some L =>
      simp only [insertResult, insertLevels_def, insertLimit, insertPages,
        insertBest, hM, Bool.false_eq_true, if_false]

theorem detach_eq {b : Book} {id : Nat} {o : Order}
    (hsome : alookup b.orders id = some o) :
    b.detach id = some (o, detachResult b id o) := by
  simp only [Book.detach, hsome, detachResult, detachLevels, detachBest]

theorem amend_eq_same {b : Book} {id : Nat} {o : Order}
    {new_price new_volume : Int}
    (hsome : alookup b.orders id = some o)
    (hal : new_price % b.unit = 0)
    (hpr : o.price = new_price) :
    b.amend id new_price new_volume =
      some (amendVolResult b id o new_volume) := by
  simp only [Book.amend, hsome, Option.isSome_some, not_true_eq_false,
    Bool.true_eq_false, if_false, hal, ne_eq, not_true_eq_false,
    Option.getD_some, hpr, amendVolResult]

theorem insertResult_orders (b : Book) (o : Order) :
    (insertResult b o).orders = aset b.orders o.order_id o :=
  upd_orders b o.side (insertLevels b o) (insertPages b o)
    (b.volumeOf o.side + o.volume) (insertBest b o)
    (aset b.orders o.order_id o) (b.order_count + 1)

theorem insertResult_count (b : Book) (o : Order) :
    (insertResult b o).order_count = b.order_count + 1 :=
  upd_count b o.side (insertLevels b o) (insertPages b o)
    (b.volumeOf o.side + o.volume) (insertBest b o)
    (aset b.orders o.order_id o) (b.order_count + 1)

theorem insertResult_unit (b : Book) (o : Order) :
    (insertResult b o).unit = b.unit :=
  upd_unit b o.side (insertLevels b o) (insertPages b o)
    (b.volumeOf o.side + o.volume) (insertBest b o)
    (aset b.orders o.order_id o) (b.order_count + 1)

theorem insertResult_symbol (b : Book) (o : Order) :
    (insertResult b o).symbol = b.symbol :=
  upd_symbol b o.side (insertLevels b o) (insertPages b o)
    (b.volumeOf o.side + o.volume) (insertBest b o)
    (aset b.orders o.order_id o) (b.order_count + 1)

theorem insertResult_tickOf (b : Book) (o : Order) (p : Int) :
    (insertResult b o).tickOf p = b.tickOf p :=
  upd_tickOf b o.side (insertLevels b o) (insertPages b o)
    (b.volumeOf o.side + o.volume) (insertBest b o)
    (aset b.orders o.order_id o) (b.order_count + 1) p

theorem insertResult_levelsOf (b : Book) (o : Order) (s2 : Side) :
    (insertResult b o).levelsOf s2 =
      if s2 = o.side then insertLevels b o else b.levelsOf s2 :=
  upd_levelsOf b o.side (insertLevels b o) (insertPages b o)
    (b.volumeOf o.side + o.volume) (insertBest b o)
    (aset b.orders o.order_id o) (b.order_count + 1) s2

theorem insertResult_pagesOf (b : Book) (o : Order) (s2 : Side) :
    (insertResult b o).pagesOf s2 =
      if s2 = o.side then insertPages b o else b.pagesOf s2 :=
  upd_pagesOf b o.side (insertLevels b o) (insertPages b o)
    (b.volumeOf o.side + o.volume) (insertBest b o)
    (aset b.orders o.order_id o) (b.order_count + 1) s2

theorem insertResult_volumeOf (b : Book) (o : Order) (s2 : Side) :
    (insertResult b o).volumeOf s2 =
      if s2 = o.side then b.volumeOf o.side + o.volume else b.volumeOf s2 :=
  upd_volumeOf b o.side (insertLevels b o) (insertPages b o)
    (b.volumeOf o.side + o.volume) (insertBest b o)
    (aset b.orders o.order_id o) (b.order_count + 1) s2

theorem insertResult_bestOf (b : Book) (o : Order) (s2 : Side) :
    (insertResult b o).bestOf s2 =
      if s2 = o.side then insertBest b o else b.bestOf s2 :=
  upd_bestOf b o.side (insertLevels b o) (insertPages b o)
    (b.volumeOf o.side + o.volume) (insertBest b o)
    (aset b.orders o.order_id o) (b.order_count + 1) s2

theorem detachResult_orders (b : Book) (id : Nat) (o : Order) :
    (detachResult b id o).orders = aerase b.orders id :=
  upd_orders b o.side (detachLevels b id o) (b.pagesOf o.side)
    (b.volumeOf o.side - o.volume) (detachBest b id o)
    (aerase b.orders id) (b.order_count - 1)

theorem detachResult_count (b : Book) (id : Nat) (o : Order) :
    (detachResult b id o).order_count = b.order_count - 1 :=
  upd_count b o.side (detachLevels b id o) (b.pagesOf o.side)
    (b.volumeOf o.side - o.volume) (detachBest b id o)
    (aerase b.orders id) (b.order_count - 1)

theorem detachResult_unit (b : Book) (id : Nat) (o : Order) :
    (detachResult b id o).unit = b.unit :=
  upd_unit b o.side (detachLevels b id o) (b.pagesOf o.side)
    (b.volumeOf o.side - o.volume) (detachBest b id o)
    (aerase b.orders id) (b.order_count - 1)

theorem detachResult_symbol (b : Book) (id : Nat) (o : Order) :
    (detachResult b id o).symbol = b.symbol :=
  upd_symbol b o.side (detachLevels b id o) (b.pagesOf o.side)
    (b.volumeOf o.side - o.volume) (detachBest b id o)
    (aerase b.orders id) (b.order_count - 1)

theorem detachResult_tickOf (b : Book) (id : Nat) (o : Order) (p : Int) :
    (detachResult b id o).tickOf p = b.tickOf p :=
  upd_tickOf b o.side (detachLevels b id o) (b.pagesOf o.side)
    (b.volumeOf o.side - o.volume) (detachBest b id o)
    (aerase b.orders id) (b.order_count - 1) p

theorem detachResult_levelsOf (b : Book) (id : Nat) (o : Order) (s2 : Side) :
    (detachResult b id o).levelsOf s2 =
      if s2 = o.side then detachLevels b id o else b.levelsOf s2 :=
  upd_levelsOf b o.side (detachLevels b id o) (b.pagesOf o.side)
    (b.volumeOf o.side - o.volume) (detachBest b id o)
    (aerase b.orders id) (b.order_count - 1) s2

theorem detachResult_pagesOf (b : Book) (id : Nat) (o : Order) (s2 : Side) :
    (detachResult b id o).pagesOf s2 = b.pagesOf s2 := by
  have := upd_pagesOf b o.side (detachLevels b id o) (b.pagesOf o.side)
    (b.volumeOf o.side - o.volume) (detachBest b id o)
    (aerase b.orders id) (b.order_count - 1) s2
  rw [detachResult, this]
  by_cases h : s2 = o.side <;> simp [h]

theorem detachResult_volumeOf (b : Book) (id : Nat) (o : Order) (s2 : Side) :
    (detachResult b id o).volumeOf s2 =
      if s2 = o.side then b.volumeOf o.side - o.volume else b.volumeOf s2 :=
  upd_volumeOf b o.side (detachLevels b id o) (b.pagesOf o.side)
    (b.volumeOf o.side - o.volume) (detachBest b id o)
    (aerase b.orders id) (b.order_count - 1) s2

theorem detachResult_bestOf (b : Book) (id : Nat) (o : Order) (s2 : Side) :
    (detachResult b id o).bestOf s2 =
      if s2 = o.side then detachBest b id o else b.bestOf s2 :=
  upd_bestOf b o.side (detachLevels b id o) (b.pagesOf o.side)
    (b.volumeOf o.side - o.volume) (detachBest b id o)
    (aerase b.orders id) (b.order_count - 1) s2

theorem amend_eq_move {b : Book} {id : Nat} {o : Order}
    {new_price new_volume : Int}
    (hsome : alookup b.orders id = some o)
    (hal : new_price % b.unit = 0)
    (hpr : o.price ≠ new_price) :
    b.amend id new_price new_volume =
      some (((detachResult b id o).insert
        { o with price := new_price, volume := new_volume }).getD
          (detachResult b id o)) := by
  simp only [Book.amend, hsome, Option.isSome_some, not_true_eq_false,
    Bool.true_eq_false, if_false, hal, ne_eq, Option.getD_some, hpr,
    not_false_eq_true, if_true, detach_eq hsome]

theorem growPages_ge (pages tick : Nat) (h2 : 2 ≤ pages) :
    pages ≤ growPages pages tick := by
  unfold growPages
  by_cases h : tick / 4096 < pages
  · simp [h]
  · simp only [h, if_false]
    omega

theorem lt_mul_growPages {pages tick : Nat} (h2 : 2 ≤ pages) :
    tick < 4096 * growPages pages tick := by
  unfold growPages
  by_cases h : tick / 4096 < pages
  · rw [if_pos h]
    have := Nat.div_add_mod tick 4096
    have hm : tick % 4096 < 4096 := Nat.mod_lt _ (by norm_num)
    omega
  · rw [if_neg h]
    have := Nat.div_add_mod tick 4096
    have hm : tick % 4096 < 4096 := Nat.mod_lt _ (by norm_num)
    push_neg at h
    omega

theorem tickBetterEq_refl (s : Side) (t : Nat) : tickBetterEq s t t := by
  cases s <;> simp [tickBetterEq]

theorem wfBook_insert {b : Book} (hb : WFBook b) {o : Order} {b1 : Book}
    (hp : 0 < o.price) (hv : 0 ≤ o.volume)
    (h : b.insert o = some b1) : WFBook b1 := by
  have hnone : alookup b.orders o.order_id = none := by
    cases hl : alookup b.orders o.order_id with
    | none => rfl
    | some v => rw [Book.insert, hl] at h; simp at h
  have hal : o.price % b.unit = 0 := by rw [hb.unit_one]; exact Int.emod_one _
  rw [insert_eq hnone hal, Option.some.injEq] at h
  subst h
  have hkeys : o.order_id ∉ b.orders.map Prod.fst := by
    rw [← alookup_isSome_iff, hnone]; simp
  have haset : aset b.orders o.order_id o = b.orders ++ [(o.order_id, o)] :=
    aset_of_not_mem o hkeys
  have htc : ((b.tickOf o.price : Nat) : Int) = o.price := by
    simp [Book.tickOf, hb.unit_one, Int.toNat_of_nonneg hp.le]
  -- a member of any stored queue is a stored key, hence not the fresh id
  have hmemne : ∀ s2 t L id2, b.levelsOf s2 t = some L → id2 ∈ L.queue →
      id2 ≠ o.order_id := by
    intro s2 t L id2 hL hid heq
    obtain ⟨o2, ho2, -, -⟩ := hb.level_members s2 t L hL id2 hid
    rw [heq, hnone] at ho2
    cases ho2
  have hlookpres : ∀ s2 t L, b.levelsOf s2 t = some L → ∀ id2 ∈ L.queue,
      alookup (aset b.orders o.order_id o) id2 = alookup b.orders id2 :=
    fun s2 t L hL id2 hid =>
      alookup_aset_ne _ _ _ _ (hmemne s2 t L id2 hL hid)
  -- facts about the new limit
  have hILq : ∀ {L0}, b.levelsOf o.side (b.tickOf o.price) = some L0 →
      insertLimit b o =
        { price := L0.price, size := L0.size + 1,
          volume := L0.volume + o.volume,
          queue := L0.queue ++ [o.order_id] } := by
    intro L0 hM; simp [insertLimit, hM]
  have hILn : b.levelsOf o.side (b.tickOf o.price) = none →
      insertLimit b o =
        { price := o.price, size := 1,
          volume := o.volume, queue := [o.order_id] } := by
    intro hM; simp [insertLimit, hM]
  have hILprice : (insertLimit b o).price = ((b.tickOf o.price : Nat) : Int) := by
    cases hM : b.levelsOf o.side (b.tickOf o.price) with
    | none => rw [hILn hM, htc]
    | some L0 => rw [hILq hM]; exact hb.level_price o.side _ L0 hM
  have hILsize : 0 < (insertLimit b o).size := by
    cases hM : b.levelsOf o.side (b.tickOf o.price) with
    | none => rw [hILn hM]; exact Nat.one_pos
    | some L0 => rw [hILq hM]; exact Nat.succ_pos _
  refine ⟨?_, ?_, ?_, ?_, ?_, ?_, ?_, ?_, ?_, ?_, ?_, ?_, ?_, ?_, ?_, ?_, ?_, ?_⟩
  -- unit_one
  · rw [insertResult_unit]; exact hb.unit_one
  -- keys_nodup
  · rw [insertResult_orders, haset]
    simp only [List.map_append, List.map_cons, List.map_nil]
    exact List.Nodup.append hb.keys_nodup (List.nodup_singleton _)
      (by simpa [List.disjoint_singleton] using hkeys)
  -- key_match
  · intro p hp2
    rw [insertResult_orders, haset] at hp2
    rcases List.mem_append.mp hp2 with h2 | h2
    · exact hb.key_match p h2
    · simp only [List.mem_singleton] at h2
      subst h2; rfl
  -- price_pos
  · intro p hp2
    rw [insertResult_orders, haset] at hp2
    rcases List.mem_append.mp hp2 with h2 | h2
    · exact hb.price_pos p h2
    · simp only [List.mem_singleton] at h2
      subst h2; exact hp
  -- vol_nonneg
  · intro p hp2
    rw [insertResult_orders, haset] at hp2
    rcases List.mem_append.mp hp2 with h2 | h2
    · exact hb.vol_nonneg p h2
    · simp only [List.mem_singleton] at h2
      subst h2; exact hv
  -- in_queue
  · intro p hp2
    rw [insertResult_orders, haset] at hp2
    rw [insertResult_tickOf, insertResult_levelsOf]
    rcases List.mem_append.mp hp2 with h2 | h2
    · obtain ⟨L, hL, hmem⟩ := hb.in_queue p h2
      by_cases hside : p.2.side = o.side
      · rw [hside, if_pos rfl]
        by_cases htk : b.tickOf p.2.price = b.tickOf o.price
        · rw [htk]
          refine ⟨insertLimit b o, by simp [insertLevels_def], ?_⟩
          rw [hside, htk] at hL
          rw [hILq hL]
          exact List.mem_append_left _ hmem
        · refine ⟨L, ?_, hmem⟩
          simp only [insertLevels_def, if_neg htk]
          rw [← hside]
          exact hL
      · rw [if_neg hside]
        exact ⟨L, hL, hmem⟩
    · simp only [List.mem_singleton] at h2
      subst h2
      simp only [if_pos rfl]
      refine ⟨insertLimit b o, by simp [insertLevels_def], ?_⟩
      cases hM : b.levelsOf o.side (b.tickOf o.price) with
      | none => rw [hILn hM]; simp
      | some L0 => rw [hILq hM]; simp
  -- level_price
  · intro s2 t L2 hL2
    rw [insertResult_levelsOf] at hL2
    by_cases hside : s2 = o.side
    · rw [if_pos hside] at hL2
      simp only [insertLevels_def] at hL2
      by_cases htk : t = b.tickOf o.price
      · rw [if_pos htk] at hL2
        cases hL2
        rw [hILprice, htk]
      · rw [if_neg htk] at hL2
        rw [← hside] at hL2
        exact hb.level_price s2 t L2 hL2
    · rw [if_neg hside] at hL2
      exact hb.level_price s2 t L2 hL2
  -- level_nodup
  · intro s2 t L2 hL2
    rw [insertResult_levelsOf] at hL2
    by_cases hside : s2 = o.side
    · rw [if_pos hside] at hL2
      simp only [insertLevels_def] at hL2
      by_cases htk : t = b.tickOf o.price
      · rw [if_pos htk] at hL2
        cases hL2
        cases hM : b.levelsOf o.side (b.tickOf o.price) with
        | none => rw [hILn hM]; exact List.nodup_singleton _
        | some L0 =>
            rw [hILq hM]
            simp only [List.nodup_append, List.nodup_singleton,
              List.disjoint_singleton]
            exact ⟨hb.level_nodup o.side _ L0 hM, trivial,
              fun hmem => (hmemne o.side _ L0 _ hM hmem) rfl⟩
      · rw [if_neg htk] at hL2
        rw [← hside] at hL2
        exact hb.level_nodup s2 t L2 hL2
    · rw [if_neg hside] at hL2
      exact hb.level_nodup s2 t L2 hL2
  -- level_size
  · intro s2 t L2 hL2
    rw [insertResult_levelsOf] at hL2
    by_cases hside : s2 = o.side
    · rw [if_pos hside] at hL2
      simp only [insertLevels_def] at hL2
      by_cases htk : t = b.tickOf o.price
      · rw [if_pos htk] at hL2
        cases hL2
        cases hM : b.levelsOf o.side (b.tickOf o.price) with
        | none => rw [hILn hM]; rfl
        | some L0 =>
            rw [hILq hM]
            simp [hb.level_size o.side _ L0 hM]
      · rw [if_neg htk] at hL2
        rw [← hside] at hL2
        exact hb.level_size s2 t L2 hL2
    · rw [if_neg hside] at hL2
      exact hb.level_size s2 t L2 hL2
  -- level_vol
  · intro s2 t L2 hL2
    rw [insertResult_levelsOf] at hL2
    rw [insertResult_orders]
    by_cases hside : s2 = o.side
    · rw [if_pos hside] at hL2
      simp only [insertLevels_def] at hL2
      by_cases htk : t = b.tickOf o.price
      · rw [if_pos htk] at hL2
        cases hL2
        cases hM : b.levelsOf o.side (b.tickOf o.price) with
        | none =>
            rw [hILn hM]
            rw [queueVolume_cons, alookup_aset_self]
            simp [queueVolume]
        | some L0 =>
            rw [hILq hM]
            rw [queueVolume_append]
            rw [queueVolume_congr (hlookpres o.side _ L0 hM)]
            rw [← hb.level_vol o.side _ L0 hM]
            rw [queueVolume_cons, alookup_aset_self]
            simp [queueVolume]
      · rw [if_neg htk] at hL2
        rw [← hside] at hL2
        rw [queueVolume_congr (hlookpres s2 t L2 hL2)]
        exact hb.level_vol s2 t L2 hL2
    · rw [if_neg hside] at hL2
      rw [queueVolume_congr (hlookpres s2 t L2 hL2)]
      exact hb.level_vol s2 t L2 hL2
  -- level_members
  · intro s2 t L2 hL2 id2 hid2
    rw [insertResult_levelsOf] at hL2
    simp only [insertResult_orders, insertResult_tickOf]
    by_cases hside : s2 = o.side
    · rw [if_pos hside] at hL2
      simp only [insertLevels_def] at hL2
      by_cases htk : t = b.tickOf o.price
      · rw [if_pos htk] at hL2
        cases hL2
        have hqsplit : id2 = o.order_id ∨
            ∃ L0, b.levelsOf o.side (b.tickOf o.price) = some L0 ∧
              id2 ∈ L0.queue := by
          cases hM : b.levelsOf o.side (b.tickOf o.price) with
          | none =>
              rw [hILn hM] at hid2
              simp only [List.mem_singleton] at hid2
              exact Or.inl hid2
          | some L0 =>
              rw [hILq hM] at hid2
              simp only [List.mem_append, List.mem_singleton] at hid2
              rcases hid2 with h2 | h2
              · exact Or.inr ⟨L0, rfl, h2⟩
              · exact Or.inl h2
        rcases hqsplit with h2 | ⟨L0, hM, h2⟩
        · subst h2
          exact ⟨o, alookup_aset_self _ _ _, hside.symm ▸ rfl, htk ▸ rfl⟩
        · obtain ⟨o2, ho2, hs2, ht2⟩ := hb.level_members o.side _ L0 hM id2 h2
          refine ⟨o2, ?_, hside ▸ hs2, htk ▸ ht2⟩
          rw [alookup_aset_ne _ _ _ _ (hmemne o.side _ L0 id2 hM h2), ho2]
      · rw [if_neg htk] at hL2
        rw [← hside] at hL2
        obtain ⟨o2, ho2, hs2, ht2⟩ := hb.level_members s2 t L2 hL2 id2 hid2
        refine ⟨o2, ?_, hs2, ht2⟩
        rw [alookup_aset_ne _ _ _ _ (hmemne s2 t L2 id2 hL2 hid2), ho2]
    · rw [if_neg hside] at hL2
      obtain ⟨o2, ho2, hs2, ht2⟩ := hb.level_members s2 t L2 hL2 id2 hid2
      refine ⟨o2, ?_, hs2, ht2⟩
      rw [alookup_aset_ne _ _ _ _ (hmemne s2 t L2 id2 hL2 hid2), ho2]
  -- level_bound
  · intro s2 t L2 hL2
    rw [insertResult_levelsOf] at hL2
    rw [insertResult_pagesOf]
    by_cases hside : s2 = o.side
    · rw [if_pos hside] at hL2
      simp only [insertLevels_def] at hL2
      rw [if_pos hside]
      by_cases htk : t = b.tickOf o.price
      · subst htk
        cases hM : b.levelsOf o.side (b.tickOf o.price) with
        | none =>
            simp only [insertPages, hM]
            exact lt_mul_growPages (hb.pages_ge o.side)
        | some L0 =>
            simp only [insertPages, hM]
            exact hb.level_bound o.side _ L0 hM
      · rw [if_neg htk] at hL2
        rw [← hside] at hL2
        have hbd := hb.level_bound s2 t L2 hL2
        rw [hside] at hbd
        calc t < 4096 * b.pagesOf o.side := hbd
        _ ≤ 4096 * insertPages b o := by
            cases hM : b.levelsOf o.side (b.tickOf o.price) with
            | none =>
                simp only [insertPages, hM]
                exact Nat.mul_le_mul_left _ (growPages_ge _ _ (hb.pages_ge o.side))
            | some L0 => simp [insertPages, hM]
    · rw [if_neg hside] at hL2
      rw [if_neg hside]
      exact hb.level_bound s2 t L2 hL2
  -- pages_ge
  · intro s2
    rw [insertResult_pagesOf]
    by_cases hside : s2 = o.side
    · rw [if_pos hside]
      cases hM : b.levelsOf o.side (b.tickOf o.price) with
      | none =>
          simp only [insertPages, hM]
          exact le_trans (hb.pages_ge o.side) (growPages_ge _ _ (hb.pages_ge o.side))
      | some L0 =>
          simp only [insertPages, hM]
          exact hb.pages_ge o.side
    · rw [if_neg hside]
      exact hb.pages_ge s2
  -- count_eq
  · rw [insertResult_count, insertResult_orders, haset]
    simp [hb.count_eq]
  -- bvol_eq
  · have h1 : (insertResult b o).buy_volume = (insertResult b o).volumeOf Side.Buy := rfl
    rw [h1, insertResult_volumeOf, insertResult_orders, haset,
      sideVolume_append]
    by_cases hside : Side.Buy = o.side
    · rw [if_pos hside, ← hside, volumeOf_buy, hb.bvol_eq]
      simp [sideVolume, ← hside]
    · rw [if_neg hside, volumeOf_buy, hb.bvol_eq]
      simp only [sideVolume, List.map_cons, List.map_nil, List.sum_cons,
        List.sum_nil]
      rw [if_neg (fun hEq => hside hEq.symm)]
      simp
  -- svol_eq
  · have h1 : (insertResult b o).sell_volume = (insertResult b o).volumeOf Side.Sell := rfl
    rw [h1, insertResult_volumeOf, insertResult_orders, haset,
      sideVolume_append]
    by_cases hside : Side.Sell = o.side
    · rw [if_pos hside, ← hside, volumeOf_sell, hb.svol_eq]
      simp [sideVolume, ← hside]
    · rw [if_neg hside, volumeOf_sell, hb.svol_eq]
      simp only [sideVolume, List.map_cons, List.map_nil, List.sum_cons,
        List.sum_nil]
      rw [if_neg (fun hEq => hside hEq.symm)]
      simp
  -- best_some
  · intro s2 t hB
    rw [insertResult_bestOf] at hB
    by_cases hside : s2 = o.side
    · rw [if_pos hside] at hB
      rw [insertResult_levelsOf, if_pos hside, hside]
      -- goal speaks about `insertLevels b o` and `tickBetterEq o.side`
      have hsplit : ∀ t2 L2, insertLevels b o t2 = some L2 → 0 < L2.size →
          t2 = b.tickOf o.price ∨ b.levelsOf o.side t2 = some L2 := by
        intro t2 L2 hL2 hsz
        by_cases htk : t2 = b.tickOf o.price
        · exact Or.inl htk
        · simp only [insertLevels_def, if_neg htk] at hL2
          exact Or.inr hL2
      have hnewlvl : insertLevels b o (b.tickOf o.price) =
          some (insertLimit b o) := by simp [insertLevels_def]
      simp only [insertBest] at hB
      cases hBold : b.bestOf o.side with
      | none =>
          simp only [hBold, Option.some.injEq] at hB
          subst hB
          refine ⟨insertLimit b o, hnewlvl, hILsize, ?_⟩
          intro t2 L2 hL2 hsz
          rcases hsplit t2 L2 hL2 hsz with htk | hold
          · subst htk; exact tickBetterEq_refl _ _
          · have := hb.best_none o.side hBold t2 L2 hold
            omega
      | some cur =>
          obtain ⟨Lc, hLc, hLcsz, hLcmax⟩ := hb.best_some o.side cur hBold
          have hcurp : limitPriceAt (insertLevels b o) cur =
              ((cur : Nat) : Int) := by
            by_cases hcu : cur = b.tickOf o.price
            · simp only [limitPriceAt, insertLevels_def, hcu, if_true,
                eq_self_iff_true]
              rw [hILprice]
            · simp only [limitPriceAt, insertLevels_def, if_neg hcu, hLc]
              exact hb.level_price o.side cur Lc hLc
          simp only [hBold] at hB
          cases hos : o.side with
          | Buy =>
              simp only [hos] at hB
              simp only [hcurp, hILprice, ge_iff_le, Nat.cast_le] at hB
              by_cases hcmp : b.tickOf o.price ≤ cur
              · rw [if_pos hcmp] at hB
                replace hB := Option.some.inj hB
                subst hB
                by_cases hcu : cur = b.tickOf o.price
                · refine ⟨insertLimit b o, by rw [hcu]; exact hnewlvl,
                    hILsize, ?_⟩
                  intro t2 L2 hL2 hsz
                  rcases hsplit t2 L2 hL2 hsz with htk | hold
                  · subst htk
                    simp only [hos, tickBetterEq]
                    omega
                  · have := hLcmax t2 L2 hold hsz
                    simp only [hos, tickBetterEq] at this ⊢
                    omega
                · refine ⟨Lc, ?_, hLcsz, ?_⟩
                  · simp only [insertLevels_def, if_neg hcu]
                    exact hLc
                  · intro t2 L2 hL2 hsz
                    rcases hsplit t2 L2 hL2 hsz with htk | hold
                    · subst htk
                      simp only [hos, tickBetterEq]
                      omega
                    · have := hLcmax t2 L2 hold hsz
                      simp only [hos, tickBetterEq] at this ⊢
                      omega
              · rw [if_neg hcmp] at hB
                replace hB := Option.some.inj hB
                subst hB
                push_neg at hcmp
                refine ⟨insertLimit b o, hnewlvl, hILsize, ?_⟩
                intro t2 L2 hL2 hsz
                rcases hsplit t2 L2 hL2 hsz with htk | hold
                · subst htk
                  simp only [hos, tickBetterEq]
                  omega
                · have := hLcmax t2 L2 hold hsz
                  simp only [hos, tickBetterEq] at this ⊢
                  omega
          | Sell =>
              simp only [hos] at hB
              simp only [hcurp, hILprice, Nat.cast_le] at hB
              by_cases hcmp : cur ≤ b.tickOf o.price
              · rw [if_pos hcmp] at hB
                replace hB := Option.some.inj hB
                subst hB
                by_cases hcu : cur = b.tickOf o.price
                · refine ⟨insertLimit b o, by rw [hcu]; exact hnewlvl,
                    hILsize, ?_⟩
                  intro t2 L2 hL2 hsz
                  rcases hsplit t2 L2 hL2 hsz with htk | hold
                  · subst htk
                    simp only [hos, tickBetterEq]
                    omega
                  · have := hLcmax t2 L2 hold hsz
                    simp only [hos, tickBetterEq] at this ⊢
                    omega
                · refine ⟨Lc, ?_, hLcsz, ?_⟩
                  · simp only [insertLevels_def, if_neg hcu]
                    exact hLc
                  · intro t2 L2 hL2 hsz
                    rcases hsplit t2 L2 hL2 hsz with htk | hold
                    · subst htk
                      simp only [hos, tickBetterEq]
                      omega
                    · have := hLcmax t2 L2 hold hsz
                      simp only [hos, tickBetterEq] at this ⊢
                      omega
              · rw [if_neg hcmp] at hB
                replace hB := Option.some.inj hB
                subst hB
                push_neg at hcmp
                refine ⟨insertLimit b o, hnewlvl, hILsize, ?_⟩
                intro t2 L2 hL2 hsz
                rcases hsplit t2 L2 hL2 hsz with htk | hold
                · subst htk
                  simp only [hos, tickBetterEq]
                  omega
                · have := hLcmax t2 L2 hold hsz
                  simp only [hos, tickBetterEq] at this ⊢
                  omega
    · rw [if_neg hside] at hB
      rw [insertResult_levelsOf, if_neg hside]
      exact hb.best_some s2 t hB
  -- best_none
  · intro s2 hB
    rw [insertResult_bestOf] at hB
    by_cases hside : s2 = o.side
    · exfalso
      rw [if_pos hside] at hB
      simp only [insertBest] at hB
      cases hBold : b.bestOf o.side with
      | none => simp only [hBold] at hB; cases hB
      | some cur =>
          simp only [hBold] at hB
          cases hos : o.side with
          | Buy =>
              simp only [hos] at hB
              by_cases hc : limitPriceAt (insertLevels b o) cur ≥
                  (insertLimit b o).price
              · rw [if_pos hc] at hB; cases hB
              · rw [if_neg hc] at hB; cases hB
          | Sell =>
              simp only [hos] at hB
              by_cases hc : limitPriceAt (insertLevels b o) cur ≤
                  (insertLimit b o).price
              · rw [if_pos hc] at hB; cases hB
              · rw [if_neg hc] at hB; cases hB
    · rw [if_neg hside] at hB
      intro t L2 hL2
      rw [insertResult_levelsOf, if_neg hside] at hL2
      exact hb.best_none s2 hB t L2 hL2

theorem wfBook_detach {b : Book} (hb : WFBook b) {id : Nat} {od : Order}
    {b1 : Book} (h : b.detach id = some (od, b1)) : WFBook b1 := by
  have hsome : ∃ o, alookup b.orders id = some o := by
    cases hl : alookup b.orders id with
    | none => rw [Book.detach, hl] at h; cases h
    | some o => exact ⟨o, rfl⟩
  obtain ⟨o, hsome⟩ := hsome
  rw [detach_eq hsome, Option.some.injEq, Prod.mk.injEq] at h
  obtain ⟨hod, hb1⟩ := h
  subst hb1
  -- the stored order and its level
  have hoid : o.order_id = id := order_id_of_alookup hb hsome
  have hmo : (id, o) ∈ b.orders := mem_of_alookup hsome
  obtain ⟨L, hL, hidq⟩ := hb.in_queue (id, o) hmo
  have hLnd : L.queue.Nodup := hb.level_nodup _ _ _ hL
  have hLsz : L.size = L.queue.length := hb.level_size _ _ _ hL
  have hDL : ∀ t2, detachLevels b id o t2 =
      if t2 = b.tickOf o.price then
        some { L with
               queue := L.queue.erase id
               size := L.size - 1
               volume := L.volume - o.volume }
      else b.levelsOf o.side t2 := by
    intro t2
    rw [detachLevels_def]
    simp only [hL, Option.getD_some]
  -- keys of the shrunken order map
  have herased : alookup (aerase b.orders id) id = none :=
    alookup_aerase_self _ _ hb.keys_nodup
  have hperm : b.orders.Perm ((id, o) :: aerase b.orders id) :=
    perm_cons_aerase hsome
  -- a member of any queue other than id keeps its binding
  have hmemother : ∀ s2 t L2 id2, b.levelsOf s2 t = some L2 → id2 ∈ L2.queue →
      id2 ≠ id → alookup (aerase b.orders id) id2 = alookup b.orders id2 :=
    fun s2 t L2 id2 hL2 hid2 hne => alookup_aerase_ne _ _ _ hne
  -- in a level different from o's, every member differs from id
  have hother : ∀ s2 t L2, b.levelsOf s2 t = some L2 →
      (s2 ≠ o.side ∨ t ≠ b.tickOf o.price) → ∀ id2 ∈ L2.queue, id2 ≠ id := by
    intro s2 t L2 hL2 hne id2 hid2 heq
    subst heq
    obtain ⟨o2, ho2, hs2, ht2⟩ := hb.level_members s2 t L2 hL2 id2 hid2
    rw [hsome] at ho2
    cases ho2
    rcases hne with hne | hne
    · exact hne hs2.symm
    · exact hne ht2.symm
  refine ⟨?_, ?_, ?_, ?_, ?_, ?_, ?_, ?_, ?_, ?_, ?_, ?_, ?_, ?_, ?_, ?_, ?_, ?_⟩
  -- unit_one
  · rw [detachResult_unit]; exact hb.unit_one
  -- keys_nodup
  · rw [detachResult_orders]
    exact hb.keys_nodup.sublist ((aerase_sublist _ _).map _)
  -- key_match
  · intro p hp2
    rw [detachResult_orders] at hp2
    exact hb.key_match p ((aerase_sublist _ _).mem hp2)
  -- price_pos
  · intro p hp2
    rw [detachResult_orders] at hp2
    exact hb.price_pos p ((aerase_sublist _ _).mem hp2)
  -- vol_nonneg
  · intro p hp2
    rw [detachResult_orders] at hp2
    exact hb.vol_nonneg p ((aerase_sublist _ _).mem hp2)
  -- in_queue
  · intro p hp2
    rw [detachResult_orders] at hp2
    have hpmem : p ∈ b.orders := (aerase_sublist _ _).mem hp2
    have hpne : p.1 ≠ id := by
      intro heq
      have : (alookup (aerase b.orders id) p.1).isSome = true := by
        rw [alookup_isSome_iff]
        exact List.mem_map_of_mem Prod.fst hp2
      rw [heq, herased] at this
      cases this
    obtain ⟨L2, hL2, hmem2⟩ := hb.in_queue p hpmem
    rw [detachResult_tickOf, detachResult_levelsOf]
    by_cases hside : p.2.side = o.side
    · rw [hside, if_pos rfl]
      by_cases htk : b.tickOf p.2.price = b.tickOf o.price
      · rw [htk, hDL (b.tickOf o.price)]
        simp only [if_pos rfl]
        refine ⟨_, rfl, ?_⟩
        have hEq : L2 = L := by
          rw [hside, htk] at hL2
          rw [hL2] at hL
          exact Option.some.inj hL
        subst hEq
        exact (List.mem_erase_of_ne hpne).mpr hmem2
      · rw [hDL (b.tickOf p.2.price)]
        simp only [if_neg htk]
        rw [← hside]
        exact ⟨L2, hL2, hmem2⟩
    · rw [if_neg hside]
      exact ⟨L2, hL2, hmem2⟩
  -- level_price
  · intro s2 t L2 hL2
    rw [detachResult_levelsOf] at hL2
    by_cases hside : s2 = o.side
    · rw [if_pos hside, hDL t] at hL2
      by_cases htk : t = b.tickOf o.price
      · rw [if_pos htk] at hL2
        cases hL2
        rw [htk]
        exact hb.level_price o.side _ L hL
      · rw [if_neg htk] at hL2
        rw [← hside] at hL2
        exact hb.level_price s2 t L2 hL2
    · rw [if_neg hside] at hL2
      exact hb.level_price s2 t L2 hL2
  -- level_nodup
  · intro s2 t L2 hL2
    rw [detachResult_levelsOf] at hL2
    by_cases hside : s2 = o.side
    · rw [if_pos hside, hDL t] at hL2
      by_cases htk : t = b.tickOf o.price
      · rw [if_pos htk] at hL2
        cases hL2
        exact hLnd.erase _
      · rw [if_neg htk] at hL2
        rw [← hside] at hL2
        exact hb.level_nodup s2 t L2 hL2
    · rw [if_neg hside] at hL2
      exact hb.level_nodup s2 t L2 hL2
  -- level_size
  · intro s2 t L2 hL2
    rw [detachResult_levelsOf] at hL2
    by_cases hside : s2 = o.side
    · rw [if_pos hside, hDL t] at hL2
      by_cases htk : t = b.tickOf o.price
      · rw [if_pos htk] at hL2
        cases hL2
        simp only [hLsz, List.length_erase_of_mem hidq]
      · rw [if_neg htk] at hL2
        rw [← hside] at hL2
        exact hb.level_size s2 t L2 hL2
    · rw [if_neg hside] at hL2
      exact hb.level_size s2 t L2 hL2
  -- level_vol
  · intro s2 t L2 hL2
    rw [detachResult_levelsOf] at hL2
    rw [detachResult_orders]
    by_cases hside : s2 = o.side
    · rw [if_pos hside, hDL t] at hL2
      by_cases htk : t = b.tickOf o.price
      · rw [if_pos htk] at hL2
        cases hL2
        have hcg : queueVolume (aerase b.orders id) (L.queue.erase id) =
            queueVolume b.orders (L.queue.erase id) := by
          refine queueVolume_congr ?_
          intro id2 hid2
          have hne : id2 ≠ id := (List.Nodup.mem_erase_iff hLnd).mp hid2 |>.1
          exact alookup_aerase_ne _ _ _ hne
        rw [hcg, queueVolume_erase b.orders hidq, hsome]
        simp only [Option.getD_some]
        rw [hb.level_vol o.side _ L hL]
      · rw [if_neg htk] at hL2
        rw [← hside] at hL2
        have hcg : queueVolume (aerase b.orders id) L2.queue =
            queueVolume b.orders L2.queue := by
          refine queueVolume_congr ?_
          intro id2 hid2
          exact alookup_aerase_ne _ _ _
            (hother s2 t L2 hL2 (Or.inr htk) id2 hid2)
        rw [hcg]
        exact hb.level_vol s2 t L2 hL2
    · rw [if_neg hside] at hL2
      have hcg : queueVolume (aerase b.orders id) L2.queue =
          queueVolume b.orders L2.queue := by
        refine queueVolume_congr ?_
        intro id2 hid2
        exact alookup_aerase_ne _ _ _
          (hother s2 t L2 hL2 (Or.inl hside) id2 hid2)
      rw [hcg]
      exact hb.level_vol s2 t L2 hL2
  -- level_members
  · intro s2 t L2 hL2 id2 hid2
    rw [detachResult_levelsOf] at hL2
    simp only [detachResult_orders, detachResult_tickOf]
    by_cases hside : s2 = o.side
    · rw [if_pos hside, hDL t] at hL2
      by_cases htk : t = b.tickOf o.price
      · rw [if_pos htk] at hL2
        cases hL2
        simp only at hid2
        have hne : id2 ≠ id := (List.Nodup.mem_erase_iff hLnd).mp hid2 |>.1
        have hidq2 : id2 ∈ L.queue := (List.Nodup.mem_erase_iff hLnd).mp hid2 |>.2
        obtain ⟨o2, ho2, hs2, ht2⟩ := hb.level_members o.side _ L hL id2 hidq2
        refine ⟨o2, ?_, hside ▸ hs2, htk ▸ ht2⟩
        rw [alookup_aerase_ne _ _ _ hne, ho2]
      · rw [if_neg htk] at hL2
        rw [← hside] at hL2
        obtain ⟨o2, ho2, hs2, ht2⟩ := hb.level_members s2 t L2 hL2 id2 hid2
        refine ⟨o2, ?_, hs2, ht2⟩
        rw [alookup_aerase_ne _ _ _
          (hother s2 t L2 hL2 (Or.inr htk) id2 hid2), ho2]
    · rw [if_neg hside] at hL2
      obtain ⟨o2, ho2, hs2, ht2⟩ := hb.level_members s2 t L2 hL2 id2 hid2
      refine ⟨o2, ?_, hs2, ht2⟩
      rw [alookup_aerase_ne _ _ _
        (hother s2 t L2 hL2 (Or.inl hside) id2 hid2), ho2]
  -- level_bound
  · intro s2 t L2 hL2
    rw [detachResult_levelsOf] at hL2
    rw [detachResult_pagesOf]
    by_cases hside : s2 = o.side
    · rw [if_pos hside, hDL t] at hL2
      by_cases htk : t = b.tickOf o.price
      · rw [if_pos htk] at hL2
        rw [hside, htk]
        exact hb.level_bound o.side _ L hL
      · rw [if_neg htk] at hL2
        rw [← hside] at hL2
        exact hb.level_bound s2 t L2 hL2
    · rw [if_neg hside] at hL2
      exact hb.level_bound s2 t L2 hL2
  -- pages_ge
  · intro s2
    rw [detachResult_pagesOf]
    exact hb.pages_ge s2
  -- count_eq
  · rw [detachResult_count, detachResult_orders]
    have := hperm.length_eq
    simp only [List.length_cons] at this
    rw [hb.count_eq]
    omega
  -- bvol_eq
  · have h1 : (detachResult b id o).buy_volume =
        (detachResult b id o).volumeOf Side.Buy := rfl
    rw [h1, detachResult_volumeOf, detachResult_orders]
    have hsv := sideVolume_perm hperm Side.Buy
    rw [sideVolume_cons] at hsv
    by_cases hside : Side.Buy = o.side
    · rw [if_pos hside, ← hside, volumeOf_buy, hb.bvol_eq, hsv]
      simp only [← hside, eq_self_iff_true, if_true]
      ring
    · rw [if_neg hside, volumeOf_buy, hb.bvol_eq, hsv]
      rw [if_neg (fun hEq => hside hEq.symm)]
      ring
  -- svol_eq
  · have h1 : (detachResult b id o).sell_volume =
        (detachResult b id o).volumeOf Side.Sell := rfl
    rw [h1, detachResult_volumeOf, detachResult_orders]
    have hsv := sideVolume_perm hperm Side.Sell
    rw [sideVolume_cons] at hsv
    by_cases hside : Side.Sell = o.side
    · rw [if_pos hside, ← hside, volumeOf_sell, hb.svol_eq, hsv]
      simp only [← hside, eq_self_iff_true, if_true]
      ring
    · rw [if_neg hside, volumeOf_sell, hb.svol_eq, hsv]
      rw [if_neg (fun hEq => hside hEq.symm)]
      ring
  -- best_some
  · intro s2 t hB
    rw [detachResult_bestOf] at hB
    by_cases hside : s2 = o.side
    · rw [if_pos hside] at hB
      rw [detachResult_levelsOf, if_pos hside, hside]
      simp only [detachBest] at hB
      cases hBold : b.bestOf o.side with
      | none =>
          exfalso
          have hz := hb.best_none o.side hBold _ L hL
          rw [hLsz] at hz
          have hpos : 0 < L.queue.length :=
            List.length_pos.mpr (List.ne_nil_of_mem hidq)
          omega
      | some cur =>
          simp only [hBold] at hB
          obtain ⟨Lc, hLc, hLcsz, hLcmax⟩ := hb.best_some o.side cur hBold
          by_cases hsz : sizeAt (detachLevels b id o) cur = 0
          · rw [if_pos hsz] at hB
            -- the emptied level is the cached best: cur = tick
            have hcur : cur = b.tickOf o.price := by
              by_contra hne
              simp only [sizeAt, hDL cur, if_neg hne, hLc] at hsz
              omega
            -- every surviving non-empty level sits strictly below (buys)
            -- or strictly above (sells) the detached tick
            have hsplit : ∀ t2 L2, detachLevels b id o t2 = some L2 →
                0 < L2.size → t2 ≠ b.tickOf o.price ∧
                  b.levelsOf o.side t2 = some L2 ∧
                  tickBetterEq o.side (b.tickOf o.price) t2 := by
              intro t2 L2 hL2 hsz2
              by_cases htk : t2 = b.tickOf o.price
              · rw [htk] at hL2
                rw [hDL (b.tickOf o.price)] at hL2
                simp only [eq_self_iff_true, if_true, Option.some.injEq] at hL2
                rw [hcur] at hsz
                simp only [sizeAt, hDL (b.tickOf o.price), eq_self_iff_true,
                  if_true] at hsz
                rw [← hL2] at hsz2
                exfalso
                have hsz2b : 0 < L.size - 1 := hsz2
                have hszb : L.size - 1 = 0 := hsz
                omega
              · rw [hDL t2, if_neg htk] at hL2
                refine ⟨htk, hL2, ?_⟩
                have := hLcmax t2 L2 hL2 hsz2
                rw [hcur] at this
                exact this
            cases hos : o.side with
            | Buy =>
                simp only [hos] at hB
                cases hscan : scanDown (detachLevels b id o) (b.tickOf o.price) with
                | none => rw [hscan] at hB; cases hB
                | some tr =>
                    rw [hscan] at hB
                    replace hB := Option.some.inj hB
                    subst hB
                    obtain ⟨htr1, htr2, htr3⟩ := scanDown_some hscan
                    have htrlvl : ∃ Lr, detachLevels b id o tr = some Lr ∧
                        0 < Lr.size := by
                      cases hdl : detachLevels b id o tr with
                      | none =>
                          exfalso
                          simp only [sizeAt, hdl] at htr2
                          omega
                      | some Lr =>
                          refine ⟨Lr, rfl, ?_⟩
                          simpa [sizeAt, hdl] using htr2
                    obtain ⟨Lr, hLr, hLrsz⟩ := htrlvl
                    refine ⟨Lr, hLr, hLrsz, ?_⟩
                    intro t2 L2 hL2 hsz2
                    obtain ⟨hne2, hold2, hbet2⟩ := hsplit t2 L2 hL2 hsz2
                    simp only [hos, tickBetterEq] at hbet2 ⊢
                    -- t2 ≤ tick, t2 ≠ tick, and (t, tick) is empty
                    by_contra hgt
                    push_neg at hgt
                    have : sizeAt (detachLevels b id o) t2 = 0 :=
                      htr3 t2 hgt (by omega)
                    simp only [sizeAt, hL2] at this
                    omega
            | Sell =>
                simp only [hos] at hB
                cases hscan : scanUpFrom (detachLevels b id o)
                    (b.tickOf o.price)
                    (4096 * b.pagesOf Side.Sell - b.tickOf o.price) with
                | none => rw [hscan] at hB; cases hB
                | some tr =>
                    rw [hscan] at hB
                    replace hB := Option.some.inj hB
                    subst hB
                    obtain ⟨htr1, htr2, htr3, htr4⟩ := scanUpFrom_some hscan
                    have htrlvl : ∃ Lr, detachLevels b id o tr = some Lr ∧
                        0 < Lr.size := by
                      cases hdl : detachLevels b id o tr with
                      | none =>
                          exfalso
                          simp only [sizeAt, hdl] at htr3
                          omega
                      | some Lr =>
                          refine ⟨Lr, rfl, ?_⟩
                          simpa [sizeAt, hdl] using htr3
                    obtain ⟨Lr, hLr, hLrsz⟩ := htrlvl
                    refine ⟨Lr, hLr, hLrsz, ?_⟩
                    intro t2 L2 hL2 hsz2
                    obtain ⟨hne2, hold2, hbet2⟩ := hsplit t2 L2 hL2 hsz2
                    simp only [hos, tickBetterEq] at hbet2 ⊢
                    -- tick ≤ t2, t2 ≠ tick, and (tick, t) is empty
                    by_contra hlt
                    push_neg at hlt
                    have : sizeAt (detachLevels b id o) t2 = 0 :=
                      htr4 t2 (by omega) hlt
                    simp only [sizeAt, hL2] at this
                    omega
          · rw [if_neg hsz] at hB
            replace hB := Option.some.inj hB
            subst hB
            have hlvl : ∃ Lr, detachLevels b id o cur = some Lr ∧ 0 < Lr.size := by
              cases hdl : detachLevels b id o cur with
              | none =>
                  exfalso
                  apply hsz
                  simp only [sizeAt, hdl]
              | some Lr =>
                  refine ⟨Lr, rfl, ?_⟩
                  have hz : Lr.size ≠ 0 := by
                    intro hz0
                    apply hsz
                    simp only [sizeAt, hdl]
                    exact hz0
                  omega
            obtain ⟨Lr, hLr, hLrsz⟩ := hlvl
            refine ⟨Lr, hLr, hLrsz, ?_⟩
            intro t2 L2 hL2 hsz2
            by_cases htk : t2 = b.tickOf o.price
            · -- the detached tick: it was ≤ the cached best already
              have := hLcmax _ L hL (by
                rw [hLsz]
                exact List.length_pos.mpr (List.ne_nil_of_mem hidq))
              rw [htk]
              exact this
            · rw [hDL t2, if_neg htk] at hL2
              exact hLcmax t2 L2 hL2 hsz2
    · rw [if_neg hside] at hB
      rw [detachResult_levelsOf, if_neg hside]
      exact hb.best_some s2 t hB
  -- best_none
  · intro s2 hB
    rw [detachResult_bestOf] at hB
    by_cases hside : s2 = o.side
    · rw [if_pos hside] at hB
      intro t2 L2 hL2
      rw [detachResult_levelsOf, if_pos hside, hDL t2] at hL2
      simp only [detachBest] at hB
      cases hBold : b.bestOf o.side with
      | none =>
          exfalso
          have hz := hb.best_none o.side hBold _ L hL
          rw [hLsz] at hz
          have hpos : 0 < L.queue.length :=
            List.length_pos.mpr (List.ne_nil_of_mem hidq)
          omega
      | some cur =>
          simp only [hBold] at hB
          obtain ⟨Lc, hLc, hLcsz, hLcmax⟩ := hb.best_some o.side cur hBold
          by_cases hsz : sizeAt (detachLevels b id o) cur = 0
          · rw [if_pos hsz] at hB
            have hcur : cur = b.tickOf o.price := by
              by_contra hne
              simp only [sizeAt, hDL cur, if_neg hne, hLc] at hsz
              omega
            by_cases htk : t2 = b.tickOf o.price
            · rw [if_pos htk] at hL2
              cases hL2
              rw [hcur] at hsz
              simp only [sizeAt, hDL (b.tickOf o.price), eq_self_iff_true,
                if_true] at hsz
              exact hsz
            · rw [if_neg htk] at hL2
              cases hos : o.side with
              | Buy =>
                  simp only [hos] at hB
                  cases hscan : scanDown (detachLevels b id o)
                      (b.tickOf o.price) with
                  | some tr => rw [hscan] at hB; cases hB
                  | none =>
                      by_contra hz
                      have hpos : 0 < L2.size := Nat.pos_of_ne_zero hz
                      have hbet := hLcmax t2 L2 hL2 hpos
                      rw [hcur] at hbet
                      simp only [hos, tickBetterEq] at hbet
                      have hlt : t2 < b.tickOf o.price := by omega
                      have hzz := scanDown_none hscan t2 hlt
                      simp only [sizeAt, hDL t2, if_neg htk, hL2] at hzz
                      omega
              | Sell =>
                  simp only [hos] at hB
                  cases hscan : scanUpFrom (detachLevels b id o)
                      (b.tickOf o.price)
                      (4096 * b.pagesOf Side.Sell - b.tickOf o.price) with
                  | some tr => rw [hscan] at hB; cases hB
                  | none =>
                      by_contra hz
                      have hpos : 0 < L2.size := Nat.pos_of_ne_zero hz
                      have hbet := hLcmax t2 L2 hL2 hpos
                      rw [hcur] at hbet
                      simp only [hos, tickBetterEq] at hbet
                      have hgt : b.tickOf o.price < t2 := by omega
                      have hbd : t2 < 4096 * b.pagesOf o.side :=
                        hb.level_bound o.side t2 L2 hL2
                      have hbd0 : b.tickOf o.price < 4096 * b.pagesOf o.side :=
                        hb.level_bound o.side _ L hL
                      rw [hos] at hbd hbd0
                      have hzz := scanUpFrom_none hscan t2 hgt (by omega)
                      simp only [sizeAt, hDL t2, if_neg htk, hL2] at hzz
                      omega
          · rw [if_neg hsz] at hB
            cases hB
    · rw [if_neg hside] at hB
      intro t2 L2 hL2
      rw [detachResult_levelsOf, if_neg hside] at hL2
      exact hb.best_none s2 hB t2 L2 hL2

theorem mem_aset {κ β : Type} [DecidableEq κ] {l : List (κ × β)} {k : κ}
    {v : β} {p : κ × β} (h : p ∈ aset l k v) : p ∈ l ∨ p = (k, v) := by
  induction l with
  | nil => simp [aset] at h; exact Or.inr h
  | cons q rest ih =>
      obtain ⟨k₀, w⟩ := q
      by_cases hk : k = k₀
      · subst hk
        simp only [aset, if_true, eq_self_iff_true] at h
        rcases List.mem_cons.mp h with h2 | h2
        · exact Or.inr h2
        · exact Or.inl (List.mem_cons_of_mem _ h2)
      · simp only [aset, if_neg hk] at h
        rcases List.mem_cons.mp h with h2 | h2
        · exact Or.inl (h2 ▸ List.mem_cons_self _ _)
        · rcases ih h2 with h3 | h3
          · exact Or.inl (List.mem_cons_of_mem _ h3)
          · exact Or.inr h3

theorem length_aset_of_mem {κ β : Type} [DecidableEq κ] {l : List (κ × β)}
    {k : κ} (v : β) (h : k ∈ l.map Prod.fst) :
    (aset l k v).length = l.length := by
  have := aset_keys_of_mem v h
  have h2 := congrArg List.length this
  simpa using h2

theorem amendVolResult_orders (b : Book) (id : Nat) (o : Order) (nv : Int) :
    (amendVolResult b id o nv).orders =
      aset b.orders id { o with volume := nv } := by
  simp only [amendVolResult]

theorem amendVolResult_count (b : Book) (id : Nat) (o : Order) (nv : Int) :
    (amendVolResult b id o nv).order_count = b.order_count := by
  simp only [amendVolResult]

theorem amendVolResult_unit (b : Book) (id : Nat) (o : Order) (nv : Int) :
    (amendVolResult b id o nv).unit = b.unit := by
  simp only [amendVolResult]
  exact upd_unit _ _ _ _ _ _ _ _

theorem amendVolResult_symbol (b : Book) (id : Nat) (o : Order) (nv : Int) :
    (amendVolResult b id o nv).symbol = b.symbol := by
  simp only [amendVolResult]
  exact upd_symbol _ _ _ _ _ _ _ _

theorem amendVolResult_tickOf (b : Book) (id : Nat) (o : Order) (nv : Int)
    (p : Int) : (amendVolResult b id o nv).tickOf p = b.tickOf p := by
  simp only [amendVolResult]
  exact upd_tickOf _ _ _ _ _ _ _ _ _

theorem amendVolResult_levelsOf (b : Book) (id : Nat) (o : Order) (nv : Int)
    (s2 : Side) :
    (amendVolResult b id o nv).levelsOf s2 =
      if s2 = o.side then
        (fun t => if t = b.tickOf o.price then
            some { (b.levelsOf o.side (b.tickOf o.price)).getD
                     { price := o.price, size := 0, volume := 0, queue := [] } with
                   volume := ((b.levelsOf o.side (b.tickOf o.price)).getD
                     { price := o.price, size := 0, volume := 0,
                       queue := [] }).volume + (nv - o.volume) }
          else b.levelsOf o.side t)
      else b.levelsOf s2 := by
  simp only [amendVolResult]
  exact upd_levelsOf _ _ _ _ _ _ _ _ _

theorem amendVolResult_pagesOf (b : Book) (id : Nat) (o : Order) (nv : Int)
    (s2 : Side) : (amendVolResult b id o nv).pagesOf s2 = b.pagesOf s2 := by
  simp only [amendVolResult]
  rw [upd_pagesOf]
  by_cases h : s2 = o.side <;> simp [h]

theorem amendVolResult_volumeOf (b : Book) (id : Nat) (o : Order) (nv : Int)
    (s2 : Side) :
    (amendVolResult b id o nv).volumeOf s2 =
      if s2 = o.side then b.volumeOf o.side + (nv - o.volume)
      else b.volumeOf s2 := by
  simp only [amendVolResult]
  exact upd_volumeOf _ _ _ _ _ _ _ _ _

theorem amendVolResult_bestOf (b : Book) (id : Nat) (o : Order) (nv : Int)
    (s2 : Side) :
    (amendVolResult b id o nv).bestOf s2 =
      if s2 = o.side then b.bestOf o.side else b.bestOf s2 := by
  simp only [amendVolResult]
  exact upd_bestOf _ _ _ _ _ _ _ _ _

theorem wfBook_amendVol {b : Book} (hb : WFBook b) {id : Nat} {o : Order}
    {nv : Int} (hsome : alookup b.orders id = some o) (hv : 0 ≤ nv) :
    WFBook (amendVolResult b id o nv) := by
  have hoid : o.order_id = id := order_id_of_alookup hb hsome
  have hmo : (id, o) ∈ b.orders := mem_of_alookup hsome
  obtain ⟨L, hL, hidq⟩ := hb.in_queue (id, o) hmo
  have hLnd : L.queue.Nodup := hb.level_nodup _ _ _ hL
  have hkeys : id ∈ b.orders.map Prod.fst := by
    rw [← alookup_isSome_iff, hsome]; rfl
  have hAL : ∀ s2, (amendVolResult b id o nv).levelsOf s2 =
      if s2 = o.side then
        (fun t => if t = b.tickOf o.price then
            some { L with volume := L.volume + (nv - o.volume) }
          else b.levelsOf o.side t)
      else b.levelsOf s2 := by
    intro s2
    rw [amendVolResult_levelsOf]
    simp only [hL, Option.getD_some]
  -- in a level different from o's, every member differs from id
  have hother : ∀ s2 t L2, b.levelsOf s2 t = some L2 →
      (s2 ≠ o.side ∨ t ≠ b.tickOf o.price) → ∀ id2 ∈ L2.queue, id2 ≠ id := by
    intro s2 t L2 hL2 hne id2 hid2 heq
    subst heq
    obtain ⟨o2, ho2, hs2, ht2⟩ := hb.level_members s2 t L2 hL2 id2 hid2
    rw [hsome] at ho2
    cases ho2
    rcases hne with hne | hne
    · exact hne hs2.symm
    · exact hne ht2.symm
  refine ⟨?_, ?_, ?_, ?_, ?_, ?_, ?_, ?_, ?_, ?_, ?_, ?_, ?_, ?_, ?_, ?_, ?_, ?_⟩
  · rw [amendVolResult_unit]; exact hb.unit_one
  · rw [amendVolResult_orders, aset_keys_of_mem _ hkeys]
    exact hb.keys_nodup
  · intro p hp2
    rw [amendVolResult_orders] at hp2
    rcases mem_aset hp2 with h2 | h2
    · exact hb.key_match p h2
    · subst h2; exact hoid
  · intro p hp2
    rw [amendVolResult_orders] at hp2
    rcases mem_aset hp2 with h2 | h2
    · exact hb.price_pos p h2
    · subst h2; exact hb.price_pos (id, o) hmo
  · intro p hp2
    rw [amendVolResult_orders] at hp2
    rcases mem_aset hp2 with h2 | h2
    · exact hb.vol_nonneg p h2
    · subst h2; exact hv
  · intro p hp2
    rw [amendVolResult_orders] at hp2
    rw [amendVolResult_tickOf, hAL]
    rcases mem_aset hp2 with h2 | h2
    · obtain ⟨L2, hL2, hmem2⟩ := hb.in_queue p h2
      by_cases hside : p.2.side = o.side
      · rw [hside, if_pos rfl]
        by_cases htk : b.tickOf p.2.price = b.tickOf o.price
        · rw [htk]
          simp only [if_pos rfl]
          refine ⟨_, rfl, ?_⟩
          have hEq : L2 = L := by
            rw [hside, htk] at hL2
            rw [hL2] at hL
            exact Option.some.inj hL
          subst hEq
          exact hmem2
        · simp only [if_neg htk]
          rw [← hside]
          exact ⟨L2, hL2, hmem2⟩
      · rw [if_neg hside]
        exact ⟨L2, hL2, hmem2⟩
    · subst h2
      simp only [eq_self_iff_true, if_true]
      exact ⟨_, rfl, hidq⟩
  · intro s2 t L2 hL2
    rw [hAL] at hL2
    by_cases hside : s2 = o.side
    · rw [if_pos hside] at hL2
      by_cases htk : t = b.tickOf o.price
      · rw [if_pos htk] at hL2
        cases hL2
        rw [htk]
        exact hb.level_price o.side _ L hL
      · rw [if_neg htk] at hL2
        rw [← hside] at hL2
        exact hb.level_price s2 t L2 hL2
    · rw [if_neg hside] at hL2
      exact hb.level_price s2 t L2 hL2
  · intro s2 t L2 hL2
    rw [hAL] at hL2
    by_cases hside : s2 = o.side
    · rw [if_pos hside] at hL2
      by_cases htk : t = b.tickOf o.price
      · rw [if_pos htk] at hL2
        cases hL2
        exact hLnd
      · rw [if_neg htk] at hL2
        rw [← hside] at hL2
        exact hb.level_nodup s2 t L2 hL2
    · rw [if_neg hside] at hL2
      exact hb.level_nodup s2 t L2 hL2
  · intro s2 t L2 hL2
    rw [hAL] at hL2
    by_cases hside : s2 = o.side
    · rw [if_pos hside] at hL2
      by_cases htk : t = b.tickOf o.price
      · rw [if_pos htk] at hL2
        cases hL2
        exact hb.level_size o.side _ L hL
      · rw [if_neg htk] at hL2
        rw [← hside] at hL2
        exact hb.level_size s2 t L2 hL2
    · rw [if_neg hside] at hL2
      exact hb.level_size s2 t L2 hL2
  · intro s2 t L2 hL2
    rw [hAL] at hL2
    rw [amendVolResult_orders]
    by_cases hside : s2 = o.side
    · rw [if_pos hside] at hL2
      by_cases htk : t = b.tickOf o.price
      · rw [if_pos htk] at hL2
        cases hL2
        have hper := List.perm_cons_erase hidq
        rw [queueVolume_perm _ hper, queueVolume_cons, alookup_aset_self]
        have hcg : queueVolume (aset b.orders id { o with volume := nv })
            (L.queue.erase id) = queueVolume b.orders (L.queue.erase id) := by
          refine queueVolume_congr ?_
          intro id2 hid2
          have hne : id2 ≠ id := (List.Nodup.mem_erase_iff hLnd).mp hid2 |>.1
          exact alookup_aset_ne _ _ _ _ hne
        rw [hcg, queueVolume_erase b.orders hidq, hsome]
        have hLv := hb.level_vol o.side _ L hL
        simp only [Option.getD_some]
        rw [hLv]
        ring
      · rw [if_neg htk] at hL2
        rw [← hside] at hL2
        have hcg : queueVolume (aset b.orders id { o with volume := nv })
            L2.queue = queueVolume b.orders L2.queue := by
          refine queueVolume_congr ?_
          intro id2 hid2
          exact alookup_aset_ne _ _ _ _
            (hother s2 t L2 hL2 (Or.inr htk) id2 hid2)
        rw [hcg]
        exact hb.level_vol s2 t L2 hL2
    · rw [if_neg hside] at hL2
      have hcg : queueVolume (aset b.orders id { o with volume := nv })
          L2.queue = queueVolume b.orders L2.queue := by
        refine queueVolume_congr ?_
        intro id2 hid2
        exact alookup_aset_ne _ _ _ _
          (hother s2 t L2 hL2 (Or.inl hside) id2 hid2)
      rw [hcg]
      exact hb.level_vol s2 t L2 hL2
  · intro s2 t L2 hL2 id2 hid2
    rw [hAL] at hL2
    simp only [amendVolResult_orders, amendVolResult_tickOf]
    by_cases hside : s2 = o.side
    · rw [if_pos hside] at hL2
      by_cases htk : t = b.tickOf o.price
      · rw [if_pos htk] at hL2
        cases hL2
        simp only at hid2
        by_cases hne : id2 = id
        · subst hne
          refine ⟨{ o with volume := nv }, alookup_aset_self _ _ _,
            hside.symm ▸ rfl, ?_⟩
          rw [htk]
        · obtain ⟨o2, ho2, hs2, ht2⟩ :=
            hb.level_members o.side _ L hL id2 hid2
          refine ⟨o2, ?_, hside ▸ hs2, htk ▸ ht2⟩
          rw [alookup_aset_ne _ _ _ _ hne, ho2]
      · rw [if_neg htk] at hL2
        rw [← hside] at hL2
        obtain ⟨o2, ho2, hs2, ht2⟩ := hb.level_members s2 t L2 hL2 id2 hid2
        refine ⟨o2, ?_, hs2, ht2⟩
        rw [alookup_aset_ne _ _ _ _
          (hother s2 t L2 hL2 (Or.inr htk) id2 hid2), ho2]
    · rw [if_neg hside] at hL2
      obtain ⟨o2, ho2, hs2, ht2⟩ := hb.level_members s2 t L2 hL2 id2 hid2
      refine ⟨o2, ?_, hs2, ht2⟩
      rw [alookup_aset_ne _ _ _ _
        (hother s2 t L2 hL2 (Or.inl hside) id2 hid2), ho2]
  · intro s2 t L2 hL2
    rw [hAL] at hL2
    rw [amendVolResult_pagesOf]
    by_cases hside : s2 = o.side
    · rw [if_pos hside] at hL2
      by_cases htk : t = b.tickOf o.price
      · rw [if_pos htk] at hL2
        rw [hside, htk]
        exact hb.level_bound o.side _ L hL
      · rw [if_neg htk] at hL2
        rw [← hside] at hL2
        exact hb.level_bound s2 t L2 hL2
    · rw [if_neg hside] at hL2
      exact hb.level_bound s2 t L2 hL2
  · intro s2
    rw [amendVolResult_pagesOf]
    exact hb.pages_ge s2
  · rw [amendVolResult_count, amendVolResult_orders,
      length_aset_of_mem _ hkeys]
    exact hb.count_eq
  · have h1 : (amendVolResult b id o nv).buy_volume =
        (amendVolResult b id o nv).volumeOf Side.Buy := rfl
    rw [h1, amendVolResult_volumeOf, amendVolResult_orders,
      sideVolume_aset hsome]
    by_cases hside : Side.Buy = o.side
    · rw [if_pos hside, ← hside, volumeOf_buy, hb.bvol_eq]
      simp only [← hside, eq_self_iff_true, if_true]
      ring
    · rw [if_neg hside, volumeOf_buy, hb.bvol_eq]
      rw [if_neg (fun hEq => hside hEq.symm), if_neg (fun hEq => hside hEq.symm)]
      ring
  · have h1 : (amendVolResult b id o nv).sell_volume =
        (amendVolResult b id o nv).volumeOf Side.Sell := rfl
    rw [h1, amendVolResult_volumeOf, amendVolResult_orders,
      sideVolume_aset hsome]
    by_cases hside : Side.Sell = o.side
    · rw [if_pos hside, ← hside, volumeOf_sell, hb.svol_eq]
      simp only [← hside, eq_self_iff_true, if_true]
      ring
    · rw [if_neg hside, volumeOf_sell, hb.svol_eq]
      rw [if_neg (fun hEq => hside hEq.symm), if_neg (fun hEq => hside hEq.symm)]
      ring
  · intro s2 t hB
    rw [amendVolResult_bestOf] at hB
    rw [hAL]
    by_cases hside : s2 = o.side
    · rw [if_pos hside] at hB ⊢
      obtain ⟨Lc, hLc, hLcsz, hLcmax⟩ := hb.best_some o.side t hB
      by_cases htk : t = b.tickOf o.price
      · refine ⟨{ L with volume := L.volume + (nv - o.volume) }, ?_, ?_, ?_⟩
        · simp only [if_pos htk]
        · have hEq : Lc = L := by
            rw [htk] at hLc
            rw [hLc] at hL
            exact Option.some.inj hL
          subst hEq
          exact hLcsz
        · intro t2 L2 hL2 hsz2
          by_cases htk2 : t2 = b.tickOf o.price
          · rw [hside, htk, htk2]
            exact tickBetterEq_refl _ _
          · simp only [if_neg htk2] at hL2
            rw [hside]
            exact hLcmax t2 L2 hL2 hsz2
      · refine ⟨Lc, ?_, hLcsz, ?_⟩
        · simp only [if_neg htk]
          exact hLc
        · intro t2 L2 hL2 hsz2
          by_cases htk2 : t2 = b.tickOf o.price
          · simp only [if_pos htk2, Option.some.injEq] at hL2
            have hszL : 0 < L.size := by
              rw [← hL2] at hsz2
              exact hsz2
            rw [hside, htk2]
            exact hLcmax _ L hL hszL
          · simp only [if_neg htk2] at hL2
            rw [hside]
            exact hLcmax t2 L2 hL2 hsz2
    · rw [if_neg hside] at hB ⊢
      exact hb.best_some s2 t hB
  · intro s2 hB
    rw [amendVolResult_bestOf] at hB
    intro t L2 hL2
    rw [hAL] at hL2
    by_cases hside : s2 = o.side
    · rw [if_pos hside] at hB hL2
      by_cases htk : t = b.tickOf o.price
      · rw [if_pos htk] at hL2
        cases hL2
        exact hb.best_none o.side hB _ L hL
      · rw [if_neg htk] at hL2
        exact hb.best_none o.side hB t L2 hL2
    · rw [if_neg hside] at hB hL2
      exact hb.best_none s2 hB t L2 hL2

theorem wfBook_amend {b : Book} (hb : WFBook b) {id : Nat}
    {new_price new_volume : Int} {b1 : Book}
    (hp : 0 < new_price) (hv : 0 ≤ new_volume)
    (h : b.amend id new_price new_volume = some b1) : WFBook b1 := by
  have hsome : ∃ o, alookup b.orders id = some o := by
    cases hl : alookup b.orders id with
    | none => rw [Book.amend, hl] at h; simp at h
    | some o => exact ⟨o, rfl⟩
  obtain ⟨o, hsome⟩ := hsome
  have hal : new_price % b.unit = 0 := by
    rw [hb.unit_one]; exact Int.emod_one _
  by_cases hpr : o.price = new_price
  · rw [amend_eq_same hsome hal hpr, Option.some.injEq] at h
    subst h
    exact wfBook_amendVol hb hsome hv
  · rw [amend_eq_move hsome hal hpr, Option.some.injEq] at h
    subst h
    have hd : b.detach id = some (o, detachResult b id o) := detach_eq hsome
    have hwd : WFBook (detachResult b id o) := wfBook_detach hb hd
    have hoid : o.order_id = id := order_id_of_alookup hb hsome
    have hnone2 : alookup (detachResult b id o).orders
        ({ o with price := new_price, volume := new_volume } : Order).order_id
        = none := by
      rw [detachResult_orders]
      have : ({ o with price := new_price, volume := new_volume } : Order).order_id
          = id := hoid
      rw [this]
      exact alookup_aerase_self _ _ hb.keys_nodup
    have hal2 : ({ o with price := new_price, volume := new_volume } : Order).price
        % (detachResult b id o).unit = 0 := by
      rw [detachResult_unit, hb.unit_one]
      exact Int.emod_one _
    have hins := insert_eq hnone2 hal2
    rw [hins, Option.getD_some]
    exact wfBook_insert hwd hp hv hins

theorem wfBook_remove {b : Book} (hb : WFBook b) (id : Nat) :
    WFBook (b.remove id).2 := by
  unfold Book.remove
  cases hd : b.detach id with
  | none => exact hb
  | some p =>
      obtain ⟨od, b1⟩ := p
      exact wfBook_detach hb hd

theorem insert_symbol {b : Book} {o : Order} {b2 : Book}
    (h : b.insert o = some b2) : b2.symbol = b.symbol ∧ b2.unit = b.unit := by
  have hnone : alookup b.orders o.order_id = none := by
    cases hl : alookup b.orders o.order_id with
    | none => rfl
    | some v => rw [Book.insert, hl] at h; simp at h
  have hal : o.price % b.unit = 0 := by
    by_cases ha : o.price % b.unit = 0
    · exact ha
    · rw [Book.insert, hnone] at h
      simp [ha] at h
  rw [insert_eq hnone hal, Option.some.injEq] at h
  subst h
  exact ⟨insertResult_symbol b o, insertResult_unit b o⟩

theorem detach_symbol {b : Book} {id : Nat} {od : Order} {b2 : Book}
    (h : b.detach id = some (od, b2)) :
    b2.symbol = b.symbol ∧ b2.unit = b.unit := by
  have hsome : ∃ o, alookup b.orders id = some o := by
    cases hl : alookup b.orders id with
    | none => rw [Book.detach, hl] at h; cases h
    | some o => exact ⟨o, rfl⟩
  obtain ⟨o, hsome⟩ := hsome
  rw [detach_eq hsome, Option.some.injEq, Prod.mk.injEq] at h
  obtain ⟨-, hb2⟩ := h
  subst hb2
  exact ⟨detachResult_symbol b id o, detachResult_unit b id o⟩

theorem remove_symbol (b : Book) (id : Nat) :
    (b.remove id).2.symbol = b.symbol ∧ (b.remove id).2.unit = b.unit := by
  unfold Book.remove
  cases hd : b.detach id with
  | none => exact ⟨rfl, rfl⟩
  | some p =>
      obtain ⟨od, b1⟩ := p
      exact detach_symbol hd

theorem amend_symbol {b : Book} {id : Nat} {new_price new_volume : Int}
    {b2 : Book} (h : b.amend id new_price new_volume = some b2) :
    b2.symbol = b.symbol ∧ b2.unit = b.unit := by
  have hsome : ∃ o, alookup b.orders id = some o := by
    cases hl : alookup b.orders id with
    | none => rw [Book.amend, hl] at h; simp at h
    | some o => exact ⟨o, rfl⟩
  obtain ⟨o, hsome⟩ := hsome
  have hal : new_price % b.unit = 0 := by
    by_cases ha : new_price % b.unit = 0
    · exact ha
    · rw [Book.amend, hsome] at h
      simp [ha] at h
  by_cases hpr : o.price = new_price
  · rw [amend_eq_same hsome hal hpr, Option.some.injEq] at h
    subst h
    exact ⟨amendVolResult_symbol _ _ _ _, amendVolResult_unit _ _ _ _⟩
  · rw [amend_eq_move hsome hal hpr, Option.some.injEq] at h
    subst h
    cases hi : (detachResult b id o).insert
        { o with price := new_price, volume := new_volume } with
    | none =>
        rw [Option.getD_none]
        exact ⟨detachResult_symbol b id o, detachResult_unit b id o⟩
    | some b3 =>
        rw [Option.getD_some]
        obtain ⟨h1, h2⟩ := insert_symbol hi
        rw [h1, h2]
        exact ⟨detachResult_symbol b id o, detachResult_unit b id o⟩

theorem get_order_by_id_spec (bk : Book) (bid : Nat)
    (h : (bk.get_order_by_id bid).order_id ≠ 0) :
    alookup bk.orders bid = some (bk.get_order_by_id bid) := by
  unfold Book.get_order_by_id at h ⊢
  cases hl : alookup bk.orders bid with
  | none => rw [hl] at h; simp at h
  | some o => rfl

theorem wfBook_addOrderLoop (side : Side) (price : Int) :
    ∀ (fuel : Nat) (book : Book) (volume : Int) (fills : List Fill),
      WFBook book →
      WFBook (addOrderLoop side price fuel book volume fills).1 ∧
      ((addOrderLoop side price fuel book volume fills).1.symbol = book.symbol ∧
       (addOrderLoop side price fuel book volume fills).1.unit = book.unit) := by
  intro fuel
  induction fuel with
  | zero => intro book volume fills hb; exact ⟨hb, rfl, rfl⟩
  | succ fuel ih =>
      intro book volume fills hb
      rw [addOrderLoop]
      by_cases hv : volume > 0
      · rw [if_pos hv]
        by_cases hid : (book.get_order_by_id (book.get_best_offer_id side)).order_id = 0
        · rw [if_pos hid]
          exact ⟨hb, rfl, rfl⟩
        · rw [if_neg hid]
          have hlook := get_order_by_id_spec book (book.get_best_offer_id side) hid
          have hmem := mem_of_alookup hlook
          have hbp : 0 < (book.get_order_by_id (book.get_best_offer_id side)).price :=
            hb.price_pos _ hmem
          by_cases hcross : (side = Side.Buy ∧
              (book.get_order_by_id (book.get_best_offer_id side)).price ≤ price) ∨
              (side = Side.Sell ∧
              (book.get_order_by_id (book.get_best_offer_id side)).price ≥ price)
          · rw [if_pos hcross]
            by_cases hbig :
                (book.get_order_by_id (book.get_best_offer_id side)).volume > volume
            · rw [if_pos hbig]
              cases ha : book.amend
                  (book.get_order_by_id (book.get_best_offer_id side)).order_id
                  (book.get_order_by_id (book.get_best_offer_id side)).price
                  ((book.get_order_by_id (book.get_best_offer_id side)).volume
                    - volume) with
              | none => exact ⟨hb, rfl, rfl⟩
              | some b2 =>
                  exact ⟨wfBook_amend hb hbp (by omega) ha,
                    (amend_symbol ha).1, (amend_symbol ha).2⟩
            · rw [if_neg hbig]
              have hrec := ih ((book.remove (book.get_order_by_id (book.get_best_offer_id side)).order_id).2) (volume - (book.get_order_by_id (book.get_best_offer_id side)).volume) (fills ++ [{ other_order_id := (book.get_order_by_id (book.get_best_offer_id side)).order_id, trade_price := (book.get_order_by_id (book.get_best_offer_id side)).price, trade_volume := (book.get_order_by_id (book.get_best_offer_id side)).volume }]) (wfBook_remove hb _)
              refine ⟨hrec.1, ?_, ?_⟩
              · rw [hrec.2.1, (remove_symbol book _).1]
              · rw [hrec.2.2, (remove_symbol book _).2]
          · rw [if_neg hcross]
            exact ⟨hb, rfl, rfl⟩
      · rw [if_neg hv]
        exact ⟨hb, rfl, rfl⟩

/-! ## Theorems: engine-level well-formedness -/

theorem wfEngine_empty : WFEngine Engine.empty := by
  refine ⟨?_, ?_, ?_, ?_⟩ <;> simp [Engine.empty]

theorem wfEngine_add (e : Engine) (he : WFEngine e) (order_id : Nat)
    (symbol : String) (side : Side) (price volume : Int) :
    WFEngine (e.add_order order_id symbol side price volume).2.1 := by
  unfold Engine.add_order
  split
  · exact he
  split
  · exact he
  split
  · exact he
  split
  · exact he
  split
  · exact he
  rename_i h1 h2 h3 h4 h5
  have hp : 0 < price := by omega
  have hv : 0 < volume := by omega
  have hidfresh : order_id ∉ e.order_book_map.map Prod.fst := by
    rw [← alookup_isSome_iff]
    simp only [Bool.not_eq_true] at h2
    rw [h2]
    simp
  split
  · -- no book for this symbol: create one and rest the order
    rename_i hbs
    have hsymfresh : symbol ∉ e.books.map Prod.fst := by
      rw [← alookup_isSome_iff, hbs]
      simp
    have hbook1 :
        ∀ b1, ((Book.new symbol 1).insert
            { order_id := order_id, side := side,
              price := price, volume := volume }).getD (Book.new symbol 1) = b1 →
          b1.symbol = symbol ∧ b1.unit = 1 ∧ WFBook b1 := by
      intro b1 hb1
      cases hi : (Book.new symbol 1).insert
          { order_id := order_id, side := side,
            price := price, volume := volume } with
      | none =>
          rw [hi, Option.getD_none] at hb1
          subst hb1
          exact ⟨rfl, rfl, wfBook_new symbol⟩
      | some b2 =>
          rw [hi, Option.getD_some] at hb1
          subst hb1
          obtain ⟨hs2, hu2⟩ := insert_symbol hi
          exact ⟨hs2, hu2, wfBook_insert (wfBook_new symbol) hp hv.le hi⟩
    simp only []
    refine ⟨?_, ?_, ?_, ?_⟩
    · rw [aset_of_not_mem _ hsymfresh]
      simp only [List.map_append, List.map_cons, List.map_nil]
      exact List.Nodup.append he.books_nodup (List.nodup_singleton _)
        (by simpa [List.disjoint_singleton] using hsymfresh)
    · rw [aset_of_not_mem _ hidfresh]
      simp only [List.map_append, List.map_cons, List.map_nil]
      exact List.Nodup.append he.map_nodup (List.nodup_singleton _)
        (by simpa [List.disjoint_singleton] using hidfresh)
    · intro p hp2
      rcases mem_aset hp2 with hm | hm
      · exact he.book_wf p hm
      · subst hm
        exact hbook1 _ rfl
    · intro q hq
      rcases mem_aset hq with hm | hm
      · obtain ⟨b2, hb2⟩ := he.map_books q hm
        by_cases hqs : q.2 = symbol
        · exact ⟨_, by rw [hqs, alookup_aset_self]⟩
        · exact ⟨b2, by rw [alookup_aset_ne _ _ _ _ hqs]; exact hb2⟩
      · subst hm
        exact ⟨_, by rw [alookup_aset_self]⟩
  · -- existing book: match, then rest any remainder
    rename_i target_book hbs
    obtain ⟨hsym, hunit, hwb⟩ := he.book_wf (symbol, target_book)
      (mem_of_alookup hbs)
    have hsymmem : symbol ∈ e.books.map Prod.fst := by
      rw [← alookup_isSome_iff, hbs]; rfl
    obtain ⟨hwr, hrsym, hrunit⟩ := wfBook_addOrderLoop side price
      (target_book.order_count + 1) target_book volume [] hwb
    simp only []
    split
    · -- a positive remainder rests
      rename_i hrem
      have hbook2 :
          ∀ b2, (((addOrderLoop side price (target_book.order_count + 1)
              target_book volume []).1.insert
            { order_id := order_id, side := side, price := price,
              volume := (addOrderLoop side price (target_book.order_count + 1)
                target_book volume []).2.1 }).getD
            (addOrderLoop side price (target_book.order_count + 1)
              target_book volume []).1) = b2 →
            b2.symbol = symbol ∧ b2.unit = 1 ∧ WFBook b2 := by
        intro b2 hb2
        cases hi : (addOrderLoop side price (target_book.order_count + 1)
            target_book volume []).1.insert
            { order_id := order_id, side := side, price := price,
              volume := (addOrderLoop side price (target_book.order_count + 1)
                target_book volume []).2.1 } with
        | none =>
            rw [hi, Option.getD_none] at hb2
            subst hb2
            exact ⟨hrsym.trans hsym, hrunit.trans hunit, hwr⟩
        | some b3 =>
            rw [hi, Option.getD_some] at hb2
            subst hb2
            obtain ⟨hs3, hu3⟩ := insert_symbol hi
            exact ⟨hs3.trans (hrsym.trans hsym), hu3.trans (hrunit.trans hunit),
              wfBook_insert hwr hp (le_of_lt hrem) hi⟩
      refine ⟨?_, ?_, ?_, ?_⟩
      · rw [aset_keys_of_mem _ hsymmem]
        exact he.books_nodup
      · rw [aset_of_not_mem _ hidfresh]
        simp only [List.map_append, List.map_cons, List.map_nil]
        exact List.Nodup.append he.map_nodup (List.nodup_singleton _)
          (by simpa [List.disjoint_singleton] using hidfresh)
      · intro p hp2
        rcases mem_aset hp2 with hm | hm
        · exact he.book_wf p hm
        · subst hm
          exact hbook2 _ rfl
      · intro q hq
        rcases mem_aset hq with hm | hm
        · obtain ⟨b2, hb2⟩ := he.map_books q hm
          by_cases hqs : q.2 = symbol
          · exact ⟨_, by rw [hqs, alookup_aset_self]⟩
          · exact ⟨b2, by rw [alookup_aset_ne _ _ _ _ hqs]; exact hb2⟩
        · subst hm
          exact ⟨_, by rw [alookup_aset_self]⟩
    · -- fully consumed: only the book changes
      refine ⟨?_, he.map_nodup, ?_, ?_⟩
      · rw [aset_keys_of_mem _ hsymmem]
        exact he.books_nodup
      · intro p hp2
        rcases mem_aset hp2 with hm | hm
        · exact he.book_wf p hm
        · subst hm
          exact ⟨hrsym.trans hsym, hrunit.trans hunit, hwr⟩
      · intro q hq
        obtain ⟨b2, hb2⟩ := he.map_books q hq
        by_cases hqs : q.2 = symbol
        · exact ⟨_, by rw [hqs, alookup_aset_self]⟩
        · exact ⟨b2, by rw [alookup_aset_ne _ _ _ _ hqs]; exact hb2⟩

theorem wfEngine_pull (e : Engine) (he : WFEngine e) (order_id : Nat) :
    WFEngine (e.pull_order order_id).2 := by
  unfold Engine.pull_order
  split
  · exact he
  rename_i sym hmap
  split
  · -- registered book missing: unreachable under WFEngine, engine unchanged
    exact ⟨he.books_nodup,
      he.map_nodup.sublist ((aerase_sublist _ _).map _),
      he.book_wf,
      fun q hq => he.map_books q ((aerase_sublist _ _).mem hq)⟩
  · rename_i target_book hbs
    obtain ⟨hsym, hunit, hwb⟩ := he.book_wf (sym, target_book)
      (mem_of_alookup hbs)
    have hsymmem : sym ∈ e.books.map Prod.fst := by
      rw [← alookup_isSome_iff, hbs]; rfl
    refine ⟨?_, he.map_nodup.sublist ((aerase_sublist _ _).map _), ?_, ?_⟩
    · rw [aset_keys_of_mem _ hsymmem]
      exact he.books_nodup
    · intro p hp2
      rcases mem_aset hp2 with hm | hm
      · exact he.book_wf p hm
      · subst hm
        exact ⟨(remove_symbol target_book order_id).1.trans hsym,
          (remove_symbol target_book order_id).2.trans hunit,
          wfBook_remove hwb order_id⟩
    · intro q hq
      obtain ⟨b2, hb2⟩ := he.map_books q ((aerase_sublist _ _).mem hq)
      by_cases hqs : q.2 = sym
      · exact ⟨_, by rw [hqs, alookup_aset_self]⟩
      · exact ⟨b2, by rw [alookup_aset_ne _ _ _ _ hqs]; exact hb2⟩

theorem wfEngine_amend (e : Engine) (he : WFEngine e) (order_id : Nat)
    (new_price new_volume : Int) :
    WFEngine (e.amend_order order_id new_price new_volume).2.1 := by
  unfold Engine.amend_order
  split
  · exact he
  rename_i sym hmap
  split
  · exact he
  rename_i hnp
  split
  · exact he
  rename_i target_book hbs
  obtain ⟨hsym, hunit, hwb⟩ := he.book_wf (sym, target_book)
    (mem_of_alookup hbs)
  have hsymmem : sym ∈ e.books.map Prod.fst := by
    rw [← alookup_isSome_iff, hbs]; rfl
  simp only []
  split
  · -- in-place volume amend on the book
    have hbook1 :
        ∀ b1, (target_book.amend order_id new_price
            (new_volume % (2 ^ 64 : Int))).getD target_book = b1 →
          b1.symbol = sym ∧ b1.unit = 1 ∧ WFBook b1 := by
      intro b1 hb1
      cases ha : target_book.amend order_id new_price
          (new_volume % (2 ^ 64 : Int)) with
      | none =>
          rw [ha, Option.getD_none] at hb1
          subst hb1
          exact ⟨hsym, hunit, hwb⟩
      | some b2 =>
          rw [ha, Option.getD_some] at hb1
          subst hb1
          obtain ⟨hs2, hu2⟩ := amend_symbol ha
          refine ⟨hs2.trans hsym, hu2.trans hunit,
            wfBook_amend hwb (by omega) ?_ ha⟩
          exact Int.emod_nonneg _ (by norm_num)
    refine ⟨?_, he.map_nodup, ?_, ?_⟩
    · rw [aset_keys_of_mem _ hsymmem]
      exact he.books_nodup
    · intro p hp3
      rcases mem_aset hp3 with hm | hm
      · exact he.book_wf p hm
      · subst hm
        exact hbook1 _ rfl
    · intro q hq
      obtain ⟨b2, hb2⟩ := he.map_books q hq
      by_cases hqs : q.2 = sym
      · exact ⟨_, by rw [hqs, alookup_aset_self]⟩
      · exact ⟨b2, by rw [alookup_aset_ne _ _ _ _ hqs]; exact hb2⟩
  · -- pull and re-add
    exact wfEngine_add _ (wfEngine_pull e he order_id) _ _ _ _ _

theorem reachable_wf (e : Engine) (h : Reachable e) : WFEngine e := by
  induction h with
  | empty => exact wfEngine_empty
  | add e' order_id symbol side price volume _ ih =>
      exact wfEngine_add e' ih order_id symbol side price volume
  | amend e' order_id new_price new_volume _ ih =>
      exact wfEngine_amend e' ih order_id new_price new_volume
  | pull e' order_id _ ih =>
      exact wfEngine_pull e' ih order_id

/-! ## Theorems: SparseSet page initialisation -/

namespace SparseSet

/-- Reading back a written slot: `get` after `insert` at the same index
returns the element.  The page table is non-empty (the constructor always
allocates at least one page). -/
theorem get_insert_self (s : SSet) (index : Nat) (element : Int)
    (hpages : 0 < s.pages.length) :
    (s.insert index element).get index = element := by
  unfold SSet.insert SSet.get
  simp only
  set pageIdx := index / s.page_size with hpi
  set pages1 :=
    (if pageIdx < s.pages.length then s.pages
     else s.pages ++ List.replicate (pageIdx * 2 - s.pages.length) none)
    with hp1
  have hlen : pageIdx < pages1.length := by
    rw [hp1]
    by_cases h : pageIdx < s.pages.length
    · simp [h]
    · push_neg at h
      simp only [if_neg (not_lt.mpr h), List.length_append, List.length_replicate]
      omega
  have hlen2 : pageIdx < (pages1.set pageIdx
      (some (fun off => if off = index % s.page_size then element
        else (match pages1.getD pageIdx none with
              | none => freshPage s.page_size s.sizeofT s.junk
              | some pg => pg) off))).length := by
    simpa using hlen
  rw [if_pos hlen2]
  rw [List.getD_eq_getElem?_getD, List.getElem?_set_self (by simpa using hlen)]
  simp

/-- C2: the claim says `get(k)` for a never-written `k` returns the sentinel
because freshly allocated pages are fully zero-initialized.  The code's
`Page` constructor zeroes only `size` bytes of a `size`-element array, so
for `T = Limit*` (`sizeof(T) = 8`, the instantiation the book uses, with the
default `page_size = 4096`) only slots `0..511` of each fresh page are
zeroed; slot `512` is indeterminate.  With indeterminate memory holding `7`,
reading the never-written index `512` of a freshly constructed
`SparseSet(4096)` yields `7`, not the sentinel `0`. -/
theorem C2_fresh_page_reads_junk :
    (SSet.new 4096 8 (fun _ => 7)).get 512 = 7 ∧ ((7 : Int) ≠ 0) := by
  constructor
  · rfl
  · decide

end SparseSet

/-! ## Helper theorems for the claim statements -/

theorem wfBook_bestOk {b : Book} (hb : WFBook b) : BestOk b := by
  refine ⟨?_, ?_, ?_, ?_⟩
  · intro t hbt
    obtain ⟨L, hL, hsz, hbet⟩ := hb.best_some Side.Buy t hbt
    refine ⟨L, hL, hsz, ?_⟩
    intro t2 L2 hL2 hsz2
    have h1 := hb.level_price Side.Buy t L hL
    have h2 := hb.level_price Side.Buy t2 L2 hL2
    have h3 : t2 ≤ t := hbet t2 L2 hL2 hsz2
    rw [h1, h2]
    exact_mod_cast h3
  · intro t hbt
    obtain ⟨L, hL, hsz, hbet⟩ := hb.best_some Side.Sell t hbt
    refine ⟨L, hL, hsz, ?_⟩
    intro t2 L2 hL2 hsz2
    have h1 := hb.level_price Side.Sell t L hL
    have h2 := hb.level_price Side.Sell t2 L2 hL2
    have h3 : t ≤ t2 := hbet t2 L2 hL2 hsz2
    rw [h1, h2]
    exact_mod_cast h3
  · intro t L hL hsz
    cases hbb : b.highest_buy with
    | none => exact absurd (hb.best_none Side.Buy hbb t L hL) (by omega)
    | some t2 => rfl
  · intro t L hL hsz
    cases hbb : b.lowest_sell with
    | none => exact absurd (hb.best_none Side.Sell hbb t L hL) (by omega)
    | some t2 => rfl

theorem add_order_accepts (e : Engine) (order_id : Nat) (symbol : String)
    (side : Side) (price volume : Int) (h1 : ¬ order_id = 0)
    (h2 : alookup e.order_book_map order_id = none) (h3 : ¬ symbol = "")
    (h4 : 0 < price) (h5 : 0 < volume) :
    (e.add_order order_id symbol side price volume).1 = true := by
  unfold Engine.add_order
  rw [if_neg h1,
    if_neg (show ¬ (alookup e.order_book_map order_id).isSome = true by
      rw [h2]; exact Bool.false_ne_true),
    if_neg h3, if_neg (not_le.mpr h4), if_neg (not_le.mpr h5)]
  split
  · rfl
  · simp only []
    split
    · rfl
    · rfl

/-! ## Claim theorems -/

/-- C7: in every engine state reachable by the public operations, each
registered book's `order_count` equals the number of entries of its order-id
index, its `buy_volume` the sum of the volumes of its resting buy orders,
and its `sell_volume` the sum of the volumes of its resting sell orders. -/
theorem C7_book_counters (e : Engine) (he : Reachable e) (sym : String)
    (b : Book) (hb : alookup e.books sym = some b) :
    b.order_count = b.orders.length ∧
    b.buy_volume = sideVolume b.orders Side.Buy ∧
    b.sell_volume = sideVolume b.orders Side.Sell := by
  obtain ⟨-, -, hwb⟩ := (reachable_wf e he).book_wf (sym, b) (mem_of_alookup hb)
  exact ⟨hwb.count_eq, hwb.bvol_eq, hwb.svol_eq⟩

/-- C7 at a concrete reachable state: after one resting buy order the book's
counters agree with the derived sums. -/
theorem C7_book_counters_witness :
    let bk := (alookup (Engine.empty.add_order 1 "X" Side.Buy 100 5).2.1.books
      "X").getD (Book.new "" 1)
    bk.order_count = bk.orders.length ∧
    bk.buy_volume = sideVolume bk.orders Side.Buy ∧
    bk.sell_volume = sideVolume bk.orders Side.Sell :=
  C7_book_counters _
    (Reachable.add Engine.empty 1 "X" Side.Buy 100 5 Reachable.empty) "X" _ rfl

/-- C6: in a well-formed book — the invariant every book registered in a
reachable engine state satisfies — the cached best pointers name non-empty
levels of extremal price on their own side (`BestOk`), and the property is
preserved by each public book operation: `insert` and `amend` with a
positive price and non-negative volume, `detach`, and `remove`. -/
theorem C6_best_pointer_invariant (b : Book) (hw : WFBook b) :
    BestOk b ∧
    (∀ o b1, 0 < o.price → 0 ≤ o.volume → b.insert o = some b1 → BestOk b1) ∧
    (∀ id od b1, b.detach id = some (od, b1) → BestOk b1) ∧
    (∀ id p v b1, 0 < p → 0 ≤ v → b.amend id p v = some b1 → BestOk b1) ∧
    (∀ id, BestOk (b.remove id).2) := by
  refine ⟨wfBook_bestOk hw, ?_, ?_, ?_, ?_⟩
  · intro o b1 hp hv hi
    exact wfBook_bestOk (wfBook_insert hw hp hv hi)
  · intro id od b1 hd
    exact wfBook_bestOk (wfBook_detach hw hd)
  · intro id p v b1 hp hv ha
    exact wfBook_bestOk (wfBook_amend hw hp hv ha)
  · intro id
    exact wfBook_bestOk (wfBook_remove hw id)

/-- C6 at a concrete well-formed book: the fresh book of symbol `"X"`. -/
theorem C6_best_pointer_invariant_witness :
    BestOk (Book.new "X" 1) ∧
    (∀ o b1, 0 < o.price → 0 ≤ o.volume →
      (Book.new "X" 1).insert o = some b1 → BestOk b1) ∧
    (∀ id od b1, (Book.new "X" 1).detach id = some (od, b1) → BestOk b1) ∧
    (∀ id p v b1, 0 < p → 0 ≤ v →
      (Book.new "X" 1).amend id p v = some b1 → BestOk b1) ∧
    (∀ id, BestOk ((Book.new "X" 1).remove id).2) :=
  C6_best_pointer_invariant (Book.new "X" 1) (wfBook_new "X")

/-- C4 (corrected): in a well-formed book, `get_best_offer_id(s)` returns
the order id at the head of the FIFO queue of the cached best level of the
**opposite** side — the lowest sell level when `s = Buy`, the highest buy
level when `s = Sell` — and `0` when the opposite side has no best level.
(The claim as written says the best level of side `s` itself; the
counterexample below refutes that reading.) -/
theorem C4_best_offer_id_opposite (b : Book) (hw : WFBook b) :
    (∀ t, b.lowest_sell = some t →
      ∃ L hd tl, b.sell_levels t = some L ∧ L.queue = hd :: tl ∧
        b.get_best_offer_id Side.Buy = hd) ∧
    (b.lowest_sell = none → b.get_best_offer_id Side.Buy = 0) ∧
    (∀ t, b.highest_buy = some t →
      ∃ L hd tl, b.buy_levels t = some L ∧ L.queue = hd :: tl ∧
        b.get_best_offer_id Side.Sell = hd) ∧
    (b.highest_buy = none → b.get_best_offer_id Side.Sell = 0) := by
  refine ⟨?_, ?_, ?_, ?_⟩
  · intro t hbt
    obtain ⟨L, hL, hsz, -⟩ := hw.best_some Side.Sell t hbt
    have hlen := hw.level_size Side.Sell t L hL
    cases hq : L.queue with
    | nil =>
        exfalso
        rw [hq, List.length_nil] at hlen
        omega
    | cons hd tl =>
        refine ⟨L, hd, tl, hL, hq, ?_⟩
        have hL2 : b.sell_levels t = some L := hL
        simp only [Book.get_best_offer_id, hbt, hL2, hq, List.headD_cons]
  · intro hbn
    simp only [Book.get_best_offer_id, hbn]
  · intro t hbt
    obtain ⟨L, hL, hsz, -⟩ := hw.best_some Side.Buy t hbt
    have hlen := hw.level_size Side.Buy t L hL
    cases hq : L.queue with
    | nil =>
        exfalso
        rw [hq, List.length_nil] at hlen
        omega
    | cons hd tl =>
        refine ⟨L, hd, tl, hL, hq, ?_⟩
        have hL2 : b.buy_levels t = some L := hL
        simp only [Book.get_best_offer_id, hbt, hL2, hq, List.headD_cons]
  · intro hbn
    simp only [Book.get_best_offer_id, hbn]

/-- C4 (corrected) at a concrete reachable book with one resting buy and one
resting sell order. -/
theorem C4_best_offer_id_opposite_witness :
    let bk := (alookup ((Engine.empty.add_order 1 "X" Side.Buy 100 5).2.1.add_order
      2 "X" Side.Sell 105 5).2.1.books "X").getD (Book.new "" 1)
    (∀ t, bk.lowest_sell = some t →
      ∃ L hd tl, bk.sell_levels t = some L ∧ L.queue = hd :: tl ∧
        bk.get_best_offer_id Side.Buy = hd) ∧
    (bk.lowest_sell = none → bk.get_best_offer_id Side.Buy = 0) ∧
    (∀ t, bk.highest_buy = some t →
      ∃ L hd tl, bk.buy_levels t = some L ∧ L.queue = hd :: tl ∧
        bk.get_best_offer_id Side.Sell = hd) ∧
    (bk.highest_buy = none → bk.get_best_offer_id Side.Sell = 0) :=
  C4_best_offer_id_opposite _
    (((reachable_wf _ (Reachable.add _ 2 "X" Side.Sell 105 5
          (Reachable.add Engine.empty 1 "X" Side.Buy 100 5
            Reachable.empty))).book_wf ("X", _) (mem_of_alookup rfl)).2.2)

/-- C9: `pull_order` returns true exactly when the id is known to
`order_book_map`; and because it erases the map entry and then discards the
result of the owning book's `remove`, an indexed id that is not actually
resting in the owning book still yields true, with every book left
unchanged and only the map entry erased. -/
theorem C9_pull_order_stale (e : Engine) (order_id : Nat) :
    ((e.pull_order order_id).1 = (alookup e.order_book_map order_id).isSome) ∧
    (∀ sym b, alookup e.order_book_map order_id = some sym →
      alookup e.books sym = some b →
      alookup b.orders order_id = none →
      (e.pull_order order_id).1 = true ∧
      (e.pull_order order_id).2.books = e.books ∧
      (e.pull_order order_id).2.order_book_map =
        aerase e.order_book_map order_id) := by
  constructor
  · unfold Engine.pull_order
    split
    · rename_i heq
      rw [heq]
      rfl
    · rename_i sym2 heq
      rw [heq]
      simp only []
      split
      · rfl
      · rfl
  · intro sym b hmap hbs ho
    have hdet : b.detach order_id = none := by
      unfold Book.detach
      rw [ho]
    have hrm : b.remove order_id = (false, b) := by
      unfold Book.remove
      rw [hdet]
    have hr : e.pull_order order_id =
        (true, { books := aset e.books sym b,
                 order_book_map := aerase e.order_book_map order_id }) := by
      unfold Engine.pull_order
      split
      · rename_i h
        rw [h] at hmap
        cases hmap
      · rename_i sym2 h
        rw [hmap] at h
        injection h with h
        subst h
        simp only []
        split
        · rename_i h2
          rw [h2] at hbs
          cases hbs
        · rename_i tb h2
          rw [hbs] at h2
          injection h2 with h2
          subst h2
          rw [hrm]
    rw [hr]
    exact ⟨rfl, aset_self hbs, rfl⟩

/-- C9 at the concrete stale state left by C1: order 1 was fully consumed
and removed from the book, but its map entry survived; pulling it still
returns true and leaves the book untouched. -/
theorem C9_pull_order_stale_witness :
    let e2 := ((Engine.empty.add_order 1 "Y" Side.Sell 100 5).2.1.add_order
      2 "Y" Side.Buy 100 5).2.1
    (e2.pull_order 1).1 = (alookup e2.order_book_map 1).isSome ∧
    (e2.pull_order 1).1 = true ∧
    (e2.pull_order 1).2.books = e2.books ∧
    (e2.pull_order 1).2.order_book_map = aerase e2.order_book_map 1 := by
  intro e2
  have h := C9_pull_order_stale e2 1
  exact ⟨h.1, h.2 "Y" ((alookup e2.books "Y").getD (Book.new "" 1)) rfl rfl rfl⟩

/-- C8 (corrected): amending a resting order of a well-formed registered
book to the **same price** and a volume `v2` with `0 ≤ v2 ≤` the current
volume (the claim as written omits the lower bound; the counterexample
below shows a negative `v2` deletes the order) succeeds with no fills,
leaves `order_book_map` untouched and rewrites only the owning book, to
`amendVolResult`: in it only the order's volume field, the owning level's
volume and the side's aggregate volume move (by the signed delta), while
every FIFO queue, level size and price, the other levels, the opposite
side, both best pointers, the page counts, the order count, the symbol and
the unit are unchanged. -/
theorem C8_amend_same_price_frame (e : Engine) (id : Nat) (sym : String)
    (b : Book) (o : Order) (v2 : Int)
    (hmap : alookup e.order_book_map id = some sym)
    (hbs : alookup e.books sym = some b)
    (hwb : WFBook b)
    (ho : alookup b.orders id = some o)
    (hv0 : 0 ≤ v2) (hv1 : v2 ≤ o.volume) (hvcap : o.volume < 2 ^ 64) :
    (e.amend_order id o.price v2).1 = true ∧
    (e.amend_order id o.price v2).2.2 = [] ∧
    (e.amend_order id o.price v2).2.1.order_book_map = e.order_book_map ∧
    (e.amend_order id o.price v2).2.1.books =
      aset e.books sym (amendVolResult b id o v2) ∧
    (amendVolResult b id o v2).orders =
      aset b.orders id { o with volume := v2 } ∧
    (∀ s2 t, ((amendVolResult b id o v2).levelsOf s2 t).map Limit.queue =
      (b.levelsOf s2 t).map Limit.queue) ∧
    (∀ s2 t, ((amendVolResult b id o v2).levelsOf s2 t).map Limit.size =
      (b.levelsOf s2 t).map Limit.size) ∧
    (∀ s2 t, ((amendVolResult b id o v2).levelsOf s2 t).map Limit.price =
      (b.levelsOf s2 t).map Limit.price) ∧
    (∀ s2 t, ¬ (s2 = o.side ∧ t = b.tickOf o.price) →
      (amendVolResult b id o v2).levelsOf s2 t = b.levelsOf s2 t) ∧
    ((amendVolResult b id o v2).levelsOf o.side (b.tickOf o.price)).map
        Limit.volume =
      (b.levelsOf o.side (b.tickOf o.price)).map
        (fun L => L.volume + (v2 - o.volume)) ∧
    (amendVolResult b id o v2).volumeOf o.side =
      b.volumeOf o.side + (v2 - o.volume) ∧
    (∀ s2, ¬ s2 = o.side → (amendVolResult b id o v2).volumeOf s2 =
      b.volumeOf s2) ∧
    (∀ s2, (amendVolResult b id o v2).bestOf s2 = b.bestOf s2) ∧
    (∀ s2, (amendVolResult b id o v2).pagesOf s2 = b.pagesOf s2) ∧
    (amendVolResult b id o v2).order_count = b.order_count ∧
    (amendVolResult b id o v2).symbol = b.symbol ∧
    (amendVolResult b id o v2).unit = b.unit := by
  obtain ⟨L, hL, hidq⟩ := hwb.in_queue (id, o) (mem_of_alookup ho)
  have hpos : ¬ o.price ≤ 0 :=
    not_le.mpr (hwb.price_pos (id, o) (mem_of_alookup ho))
  have hmod : v2 % (2 ^ 64 : Int) = v2 :=
    Int.emod_eq_of_lt hv0 (lt_of_le_of_lt hv1 hvcap)
  have hcopy : b.get_order_by_id id = o := by
    unfold Book.get_order_by_id
    rw [ho]
  have hcond : (b.get_order_by_id id).price = o.price ∧
      (b.get_order_by_id id).volume ≥ v2 % (2 ^ 64 : Int) := by
    rw [hcopy, hmod]
    exact ⟨rfl, hv1⟩
  have hamend : b.amend id o.price (v2 % (2 ^ 64 : Int)) =
      some (amendVolResult b id o (v2 % (2 ^ 64 : Int))) :=
    amend_eq_same ho (by rw [hwb.unit_one]; exact Int.emod_one _) rfl
  have hr : e.amend_order id o.price v2 =
      (true, { books := aset e.books sym (amendVolResult b id o v2),
               order_book_map := e.order_book_map }, []) := by
    unfold Engine.amend_order
    split
    · rename_i heq
      rw [heq] at hmap
      cases hmap
    · rename_i sym2 heq
      rw [hmap] at heq
      injection heq with heq
      subst heq
      rw [if_neg hpos, if_neg hpos]
      split
      · rename_i heq2
        rw [heq2] at hbs
        cases hbs
      · rename_i tb heq2
        rw [hbs] at heq2
        injection heq2 with heq2
        subst heq2
        simp only []
        rw [if_pos hcond, hamend, Option.getD_some, hmod]
  have hfields : ∀ {α : Type} (f : Limit → α),
      (∀ X v, f { X with volume := v } = f X) →
      ∀ s2 t, (((amendVolResult b id o v2).levelsOf s2 t).map f) =
        ((b.levelsOf s2 t).map f) := by
    intro α f hf s2 t
    rw [amendVolResult_levelsOf]
    by_cases hs : s2 = o.side
    · rw [if_pos hs]
      simp only []
      by_cases ht : t = b.tickOf o.price
      · rw [if_pos ht, hs, ht, hL, Option.getD_some]
        show some (f _) = some (f L)
        rw [hf]
      · rw [if_neg ht, hs]
    · rw [if_neg hs]
  refine ⟨by rw [hr], by rw [hr], by rw [hr], by rw [hr],
    amendVolResult_orders b id o v2,
    hfields Limit.queue (fun X v => rfl),
    hfields Limit.size (fun X v => rfl),
    hfields Limit.price (fun X v => rfl),
    ?_, ?_, ?_, ?_, ?_, ?_,
    amendVolResult_count b id o v2,
    amendVolResult_symbol b id o v2,
    amendVolResult_unit b id o v2⟩
  · intro s2 t hne
    rw [amendVolResult_levelsOf]
    by_cases hs : s2 = o.side
    · rw [if_pos hs]
      simp only []
      have ht : ¬ t = b.tickOf o.price := fun ht => hne ⟨hs, ht⟩
      rw [if_neg ht, hs]
    · rw [if_neg hs]
  · rw [amendVolResult_levelsOf, if_pos (rfl : o.side = o.side)]
    simp only []
    rw [if_pos trivial, hL, Option.getD_some]
    rfl
  · rw [amendVolResult_volumeOf, if_pos (rfl : o.side = o.side)]
  · intro s2 hs
    rw [amendVolResult_volumeOf, if_neg hs]
  · intro s2
    rw [amendVolResult_bestOf]
    by_cases hs : s2 = o.side
    · rw [if_pos hs, hs]
    · rw [if_neg hs]
  · intro s2
    rw [amendVolResult_pagesOf]

/-- C8 (corrected) at a concrete state: the resting buy order
`(1, "X", 100, 5)` amended in place to volume 3. -/
theorem C8_amend_same_price_frame_witness :
    let e1 := (Engine.empty.add_order 1 "X" Side.Buy 100 5).2.1
    let bk := (alookup e1.books "X").getD (Book.new "" 1)
    let o : Order := { order_id := 1, side := Side.Buy, price := 100,
                       volume := 5 }
    (e1.amend_order 1 o.price 3).1 = true ∧
    (e1.amend_order 1 o.price 3).2.2 = [] ∧
    (e1.amend_order 1 o.price 3).2.1.order_book_map = e1.order_book_map ∧
    (e1.amend_order 1 o.price 3).2.1.books =
      aset e1.books "X" (amendVolResult bk 1 o 3) ∧
    (amendVolResult bk 1 o 3).orders =
      aset bk.orders 1 { o with volume := 3 } ∧
    (∀ s2 t, ((amendVolResult bk 1 o 3).levelsOf s2 t).map Limit.queue =
      (bk.levelsOf s2 t).map Limit.queue) ∧
    (∀ s2 t, ((amendVolResult bk 1 o 3).levelsOf s2 t).map Limit.size =
      (bk.levelsOf s2 t).map Limit.size) ∧
    (∀ s2 t, ((amendVolResult bk 1 o 3).levelsOf s2 t).map Limit.price =
      (bk.levelsOf s2 t).map Limit.price) ∧
    (∀ s2 t, ¬ (s2 = o.side ∧ t = bk.tickOf o.price) →
      (amendVolResult bk 1 o 3).levelsOf s2 t = bk.levelsOf s2 t) ∧
    ((amendVolResult bk 1 o 3).levelsOf o.side (bk.tickOf o.price)).map
        Limit.volume =
      (bk.levelsOf o.side (bk.tickOf o.price)).map
        (fun L => L.volume + (3 - o.volume)) ∧
    (amendVolResult bk 1 o 3).volumeOf o.side =
      bk.volumeOf o.side + (3 - o.volume) ∧
    (∀ s2, ¬ s2 = o.side → (amendVolResult bk 1 o 3).volumeOf s2 =
      bk.volumeOf s2) ∧
    (∀ s2, (amendVolResult bk 1 o 3).bestOf s2 = bk.bestOf s2) ∧
    (∀ s2, (amendVolResult bk 1 o 3).pagesOf s2 = bk.pagesOf s2) ∧
    (amendVolResult bk 1 o 3).order_count = bk.order_count ∧
    (amendVolResult bk 1 o 3).symbol = bk.symbol ∧
    (amendVolResult bk 1 o 3).unit = bk.unit := by
  intro e1 bk o
  exact C8_amend_same_price_frame e1 1 "X" bk o 3 rfl rfl
    (((reachable_wf _ (Reachable.add Engine.empty 1 "X" Side.Buy 100 5
        Reachable.empty)).book_wf ("X", bk) (mem_of_alookup rfl)).2.2)
    rfl (by decide) (by decide) (by decide)

/-- C10: when `add_order` into an existing book is accepted and the matching
loop leaves no positive remainder, nothing is rested and the id is never
written to `order_book_map`; a later `add_order` re-using the id therefore
passes the duplicate-id validation and, with otherwise valid arguments, is
accepted. -/
theorem C10_full_fill_id_not_registered (e : Engine) (order_id : Nat)
    (symbol : String) (side : Side) (price volume : Int) (tb : Book)
    (h1 : ¬ order_id = 0) (h2 : alookup e.order_book_map order_id = none)
    (h3 : ¬ symbol = "") (h4 : 0 < price) (h5 : 0 < volume)
    (hbs : alookup e.books symbol = some tb)
    (hfull : ¬ (addOrderLoop side price (tb.order_count + 1) tb volume
      []).2.1 > 0) :
    (e.add_order order_id symbol side price volume).1 = true ∧
    (e.add_order order_id symbol side price volume).2.1.order_book_map =
      e.order_book_map ∧
    alookup (e.add_order order_id symbol side price volume).2.1.order_book_map
      order_id = none ∧
    (∀ symbol2 side2 price2 volume2, ¬ symbol2 = "" → 0 < price2 →
      0 < volume2 →
      ((e.add_order order_id symbol side price volume).2.1.add_order order_id
        symbol2 side2 price2 volume2).1 = true) := by
  have hr : e.add_order order_id symbol side price volume =
      (true, { books := aset e.books symbol
                 (addOrderLoop side price (tb.order_count + 1) tb volume []).1,
               order_book_map := e.order_book_map },
       (addOrderLoop side price (tb.order_count + 1) tb volume []).2.2) := by
    unfold Engine.add_order
    rw [if_neg h1,
      if_neg (show ¬ (alookup e.order_book_map order_id).isSome = true by
        rw [h2]; exact Bool.false_ne_true),
      if_neg h3, if_neg (not_le.mpr h4), if_neg (not_le.mpr h5)]
    split
    · rename_i heq
      rw [heq] at hbs
      cases hbs
    · rename_i tb2 heq
      rw [hbs] at heq
      injection heq with heq
      subst heq
      simp only []
      rw [if_neg hfull]
  refine ⟨by rw [hr], by rw [hr], ?_, ?_⟩
  · rw [hr]
    exact h2
  · intro symbol2 side2 price2 volume2 h3b h4b h5b
    rw [hr]
    exact add_order_accepts _ order_id symbol2 side2 price2 volume2
      h1 h2 h3b h4b h5b

/-- C10 at a concrete run: buy order 2 fully matches the resting sell 1,
is never registered, and re-using id 2 afterwards is accepted. -/
theorem C10_full_fill_id_not_registered_witness :
    let e1 := (Engine.empty.add_order 1 "Y" Side.Sell 100 5).2.1
    (e1.add_order 2 "Y" Side.Buy 100 5).1 = true ∧
    (e1.add_order 2 "Y" Side.Buy 100 5).2.1.order_book_map =
      e1.order_book_map ∧
    alookup (e1.add_order 2 "Y" Side.Buy 100 5).2.1.order_book_map 2 = none ∧
    ((e1.add_order 2 "Y" Side.Buy 100 5).2.1.add_order 2 "Y" Side.Sell
      101 7).1 = true := by
  intro e1
  have h := C10_full_fill_id_not_registered e1 2 "Y" Side.Buy 100 5
    ((alookup e1.books "Y").getD (Book.new "" 1)) (by decide) rfl (by decide)
    (by decide) (by decide) rfl (by decide)
  exact ⟨h.1, h.2.1, h.2.2.1,
    h.2.2.2 "Y" Side.Sell 101 7 (by decide) (by decide) (by decide)⟩

/-! ## Concrete end-to-end runs -/

/-- C1: the claim says a counter order that the matching loop fully
consumes is removed both from the book and from `order_index`
(`order_book_map`).  The code's full-consumption branch calls
`target_book->remove(best_id)` but never erases `best_id` from
`order_book_map`.  Concretely: add sell `(1, "Y", 100, 5)`, then buy
`(2, "Y", 100, 5)`.  The second call returns true and order 1 is resting in
no book, yet `order_book_map` still maps 1 to the book — the claimed
invariant is violated. -/
theorem C1_full_fill_leaves_stale_index :
    ((Engine.empty.add_order 1 "Y" Side.Sell 100 5).2.1.add_order
      2 "Y" Side.Buy 100 5).1 = true ∧
    alookup ((Engine.empty.add_order 1 "Y" Side.Sell 100 5).2.1.add_order
      2 "Y" Side.Buy 100 5).2.1.order_book_map 1 = some "Y" ∧
    ((Engine.empty.add_order 1 "Y" Side.Sell 100 5).2.1.add_order
      2 "Y" Side.Buy 100 5).2.1.books.all
      (fun p => (alookup p.2.orders 1).isNone) = true := by
  refine ⟨rfl, rfl, rfl⟩

/-- C3: the claim says `amend_order` returns false with no mutation when
`new_volume ≤ 0`.  The source validates `new_price <= 0` twice and never
checks the volume, so `amend_order(1, 100, 0)` on a resting order
`(1, "X", Buy, 100, 5)` returns true and rewrites the order's volume to 0
(and the book's buy volume from 5 to 0). -/
theorem C3_amend_zero_volume_accepted :
    ((Engine.empty.add_order 1 "X" Side.Buy 100 5).2.1.amend_order
      1 100 0).1 = true ∧
    (alookup ((Engine.empty.add_order 1 "X" Side.Buy 100 5).2.1.amend_order
        1 100 0).2.1.books "X").map
      (fun b => (alookup b.orders 1, b.buy_volume)) =
      some (some { order_id := 1, side := Side.Buy, price := 100, volume := 0 }, 0) := by
  refine ⟨rfl, rfl⟩

/-- C5: the multi-level sweep scenario.  Add sells `(1, 100, 3)`,
`(2, 100, 4)`, `(3, 101, 5)` on symbol `"X"`, then buy `(4, Buy, 101, 10)`:
the fills are exactly `[{1,100,3}, {2,100,4}, {3,101,3}]` in that order,
order 3 rests at price 101 with volume 2, and order 4 is not resting in the
book. -/
theorem C5_multi_level_sweep :
    ((((Engine.empty.add_order 1 "X" Side.Sell 100 3).2.1.add_order
      2 "X" Side.Sell 100 4).2.1.add_order 3 "X" Side.Sell 101 5).2.1.add_order
      4 "X" Side.Buy 101 10).1 = true ∧
    ((((Engine.empty.add_order 1 "X" Side.Sell 100 3).2.1.add_order
      2 "X" Side.Sell 100 4).2.1.add_order 3 "X" Side.Sell 101 5).2.1.add_order
      4 "X" Side.Buy 101 10).2.2 =
      [{ other_order_id := 1, trade_price := 100, trade_volume := 3 },
       { other_order_id := 2, trade_price := 100, trade_volume := 4 },
       { other_order_id := 3, trade_price := 101, trade_volume := 3 }] ∧
    (alookup ((((Engine.empty.add_order 1 "X" Side.Sell 100 3).2.1.add_order
        2 "X" Side.Sell 100 4).2.1.add_order 3 "X" Side.Sell 101 5).2.1.add_order
        4 "X" Side.Buy 101 10).2.1.books "X").map
      (fun b => alookup b.orders 3) =
      some (some { order_id := 3, side := Side.Sell, price := 101, volume := 2 }) ∧
    (alookup ((((Engine.empty.add_order 1 "X" Side.Sell 100 3).2.1.add_order
        2 "X" Side.Sell 100 4).2.1.add_order 3 "X" Side.Sell 101 5).2.1.add_order
        4 "X" Side.Buy 101 10).2.1.books "X").map
      (fun b => alookup b.orders 4) = some none := by
  refine ⟨rfl, rfl, rfl, rfl⟩

/-- C4 counterexample: the claim says `get_best_offer_id(s)` returns the
head of side `s`'s own best level (the highest buy level for `s = Buy`).
With buy `(1, "X", 100, 5)` and sell `(2, "X", 105, 5)` resting, the buy
side's best level is `[1]` at tick 100, but `get_best_offer_id(Buy)`
returns 2 — the head of the *sell* side's best level. -/
theorem C4_best_offer_id_opposite_cex :
    let b := ((Engine.empty.add_order 1 "X" Side.Buy 100 5).2.1.add_order
      2 "X" Side.Sell 105 5).2.1
    (alookup b.books "X").map
      (fun bk => (bk.get_best_offer_id Side.Buy, bk.highest_buy,
                  (bk.buy_levels 100).map Limit.queue)) =
      some (2, some 100, some [1]) ∧ (2 : Nat) ≠ 1 := by
  refine ⟨rfl, by decide⟩

/-- C8 counterexample: the claim quantifies over every `v' ≤ o.volume`, with
no lower bound.  For the resting order `(1, "X", Buy, 100, 5)`,
`amend_order(1, 100, -1)` satisfies the claim's hypotheses (same price,
`-1 ≤ 5`), but the `uint64_t` comparison sends it down the pull-and-re-add
path, and the re-add fails its volume validation after the pull has already
happened: the order is deleted outright rather than having only its volume
fields adjusted. -/
theorem C8_amend_negative_volume_deletes_cex :
    let r := (Engine.empty.add_order 1 "X" Side.Buy 100 5).2.1.amend_order
      1 100 (-1)
    r.1 = true ∧
    (alookup r.2.1.books "X").map
      (fun b => (alookup b.orders 1, b.order_count)) = some (none, 0) ∧
    alookup r.2.1.order_book_map 1 = none := by
  refine ⟨rfl, rfl, rfl⟩

end CLOB
